import Mathlib

/-!
Verification of the libphenom timerwheel and logging core.

The repository ships the public header `include/phenom/timerwheel.h`
(struct layouts and function declarations) and the logging/panic code,
but not `timerwheel.c` itself.  The data structures below follow the
header; the behaviour of the timerwheel operations is modelled from the
specification, as noted on each definition.  Times are modelled as
natural numbers of milliseconds; `struct timeval` arithmetic in the
sources is millisecond arithmetic at the granularity the spec uses.
-/

set_option maxHeartbeats 1000000
set_option maxRecDepth 100000

namespace Phenom

/-- Result codes from `include/phenom/defs.h` (`PH_OK` .. `PH_EXISTS`). -/
def PH_OK : Nat := 0

/-- Result code `PH_NOMEM` from `include/phenom/defs.h`. -/
def PH_NOMEM : Nat := 1

/-- Result code `PH_BUSY` from `include/phenom/defs.h`. -/
def PH_BUSY : Nat := 2

/-- Result code `PH_ERR` from `include/phenom/defs.h`. -/
def PH_ERR : Nat := 3

/-- Result code `PH_NOENT` from `include/phenom/defs.h`. -/
def PH_NOENT : Nat := 4

/-- Result code `PH_EXISTS` from `include/phenom/defs.h`. -/
def PH_EXISTS : Nat := 5

/-- `PHENOM_WHEEL_BITS` from `include/phenom/timerwheel.h`. -/
def PHENOM_WHEEL_BITS : Nat := 8

/-- `PHENOM_WHEEL_SIZE = 1 << PHENOM_WHEEL_BITS` from `include/phenom/timerwheel.h`. -/
def PHENOM_WHEEL_SIZE : Nat := 2 ^ PHENOM_WHEEL_BITS

/-- `PHENOM_WHEEL_MASK = PHENOM_WHEEL_SIZE - 1` from `include/phenom/timerwheel.h`. -/
def PHENOM_WHEEL_MASK : Nat := PHENOM_WHEEL_SIZE - 1

/-- `struct ph_timerwheel_timer` from `include/phenom/timerwheel.h`:
`due` (a `struct timeval`, modelled as milliseconds), and the
`generation`, `wheel_gen`, `active` fields.  The intrusive list link is
represented by membership of an entry in the wheel's entry list.  The
`id` field is the model's stand-in for the node's identity (its
address), since timer nodes are caller-owned C objects. -/
structure ph_timerwheel_timer where
  id : Nat
  due : Nat
  active : Bool
  generation : Nat
  wheel_gen : Nat
deriving DecidableEq

/-- One armed timer linked into the wheel: the bucket `level` (0..3) and
`slot` (0..255) it currently hangs off, together with the timer node.
This represents one node threaded on
`wheel.buckets[level].lists[slot]` from `include/phenom/timerwheel.h`. -/
structure tw_entry where
  level : Nat
  slot : Nat
  timer : ph_timerwheel_timer
deriving DecidableEq

/-- `struct ph_timerwheel` from `include/phenom/timerwheel.h`, with the
four 256-slot bucket arrays flattened into the list `entries` of linked
nodes tagged by their (level, slot).  Per spec section 4.4 the tick
position `pos` (ticks since init) and `next_run` are interconvertible
(`next_run = start + pos * tick_resolution`); the model stores `start`
and `pos` and derives `next_run`.  The spinlock is not modelled: the
claims under verification are about the sequential semantics. -/
structure ph_timerwheel where
  start : Nat
  tick_resolution : Nat
  pos : Nat
  entries : List tw_entry
deriving DecidableEq

/-- The `next_run` field of `struct ph_timerwheel`: the earliest moment
for which timers have not yet been dispatched. -/
def ph_timerwheel.next_run (w : ph_timerwheel) : Nat :=
  w.start + w.pos * w.tick_resolution

/-- Modelled from the spec: section 4.2's
`delta_ticks = max(0, (timer.due - wheel.next_run) / tick_resolution)`
(the body of `ph_timerwheel_insert` is not in the sources).  Natural
subtraction supplies the clamp at zero. -/
def ph_timerwheel.delta_ticks (w : ph_timerwheel) (due : Nat) : Nat :=
  (due - w.next_run) / w.tick_resolution

/-- Modelled from the spec: the level/slot router of section 4.1 (the
body of `ph_timerwheel_insert` is not in the sources).  The level is
selected by the magnitude of the tick delta `d`; the slot is the
corresponding radix-256 digit of the absolute due tick `p + d`, where
`p` is the wheel position, so that the tick engine of section 4.4
(which drains level-0 slot `pos mod 256` and cascades level `L` slot
`(pos >> 8L) mod 256`) finds the timer in the slot it services on the
timer's due tick.  Relative to the slot zero of each level (spec
section 3, invariant 2) the slot index is the digit of `d` itself. -/
def tw_route (p d : Nat) : Nat × Nat :=
  if d < PHENOM_WHEEL_SIZE then
    (0, (p + d) % PHENOM_WHEEL_SIZE)
  else if d < PHENOM_WHEEL_SIZE ^ 2 then
    (1, (p + d) / PHENOM_WHEEL_SIZE % PHENOM_WHEEL_SIZE)
  else if d < PHENOM_WHEEL_SIZE ^ 3 then
    (2, (p + d) / PHENOM_WHEEL_SIZE ^ 2 % PHENOM_WHEEL_SIZE)
  else
    (3, (p + d) / PHENOM_WHEEL_SIZE ^ 3 % PHENOM_WHEEL_SIZE)

/-- Modelled from the spec: the bucket entry a timer is linked into when
placed (sections 4.1 and 4.2). -/
def tw_entry_for (w : ph_timerwheel) (t : ph_timerwheel_timer) : tw_entry :=
  { level := (tw_route w.pos (w.delta_ticks t.due)).1
    slot := (tw_route w.pos (w.delta_ticks t.due)).2
    timer := t }

/-- Modelled from the spec: linking a node at the head of its routed
slot (sections 4.1, 4.2 and 4.5).  Used both by `ph_timerwheel_insert`
and by the cascade, which re-routes drained timers. -/
def tw_place (w : ph_timerwheel) (t : ph_timerwheel_timer) : ph_timerwheel :=
  { w with entries := tw_entry_for w t :: w.entries }

/-- Modelled from the spec: `ph_timerwheel_init` (declared in
`include/phenom/timerwheel.h`; body not in the sources).  All buckets
start empty and `next_run` starts at `now`. -/
def ph_timerwheel_init (now resolution : Nat) : ph_timerwheel :=
  { start := now, tick_resolution := resolution, pos := 0, entries := [] }

/-- Modelled from the spec: `ph_timerwheel_insert` (declared in
`include/phenom/timerwheel.h`; body not in the sources).  Re-arming an
active timer is the precondition violation and reports `PH_EXISTS`
(spec sections 4.2 and 7); otherwise the node is routed and linked,
`active` is set, and `wheel_gen` snapshots the generation counter.  The
spec's generation bookkeeping (sections 4.2 and 4.3) is transposed to
the per-timer `generation`/`wheel_gen` fields declared in the header,
since `struct ph_timerwheel` carries no generation field: insert makes
`wheel_gen = generation`, so `ph_timerwheel_timer_was_modified` is
false right after an insert, exactly as section 4.3 requires.  The
returned triple is (updated wheel, updated caller-owned node, result). -/
def ph_timerwheel_insert (w : ph_timerwheel) (t : ph_timerwheel_timer) :
    ph_timerwheel × ph_timerwheel_timer × Nat :=
  if t.active then
    (w, t, PH_EXISTS)
  else
    (tw_place w { t with active := true, wheel_gen := t.generation },
     { t with active := true, wheel_gen := t.generation }, PH_OK)

/-- Modelled from the spec: `ph_timerwheel_remove` (declared in
`include/phenom/timerwheel.h`; body not in the sources).  A detached
timer reports "not present" with no state change (section 4.3);
removing an armed timer unlinks it, clears `active` and bumps the
timer's `generation` field (the header's transposition of section 4.3's
generation bump, as for `ph_timerwheel_insert`). -/
def ph_timerwheel_remove (w : ph_timerwheel) (t : ph_timerwheel_timer) :
    ph_timerwheel × ph_timerwheel_timer × Nat :=
  if t.active then
    ({ w with entries := w.entries.filter (fun e => e.timer.id != t.id) },
     { t with active := false, generation := t.generation + 1 }, PH_OK)
  else
    (w, t, PH_NOENT)

/-- Modelled from the spec: `ph_timerwheel_timer_was_modified` (declared
in `include/phenom/timerwheel.h`; body not in the sources): true iff
`timer.generation != timer.wheel_gen` (spec section 4.3). -/
def ph_timerwheel_timer_was_modified (t : ph_timerwheel_timer) : Bool :=
  t.generation != t.wheel_gen

/-- Modelled from the spec: draining one higher-level slot and
re-routing each drained timer against the current wheel position (spec
section 4.5). -/
def tw_cascade_slot (w : ph_timerwheel) (lvl slot : Nat) : ph_timerwheel :=
  let drained := w.entries.filter (fun e => e.level == lvl && e.slot == slot)
  let rest := w.entries.filter (fun e => !(e.level == lvl && e.slot == slot))
  drained.foldl (fun w' e => tw_place w' e.timer) { w with entries := rest }

/-- Modelled from the spec: the level-3 stage of a cascade (spec section
4.4 step 2): when the level-2 cascade index `(pos >> 16) mod 256` is
itself 0, level 3 slot `(pos >> 24) mod 256` is first drained.  Invoked
only when the level-1 index is already 0. -/
def tw_cascade_high2 (w : ph_timerwheel) : ph_timerwheel :=
  if w.pos / PHENOM_WHEEL_SIZE ^ 2 % PHENOM_WHEEL_SIZE = 0 then
    tw_cascade_slot w 3 (w.pos / PHENOM_WHEEL_SIZE ^ 3 % PHENOM_WHEEL_SIZE)
  else w

/-- Modelled from the spec: the level-2 stage of a cascade (spec section
4.4 step 2): when the level-1 cascade index `(pos >> 8) mod 256` is 0,
level 2 slot `(pos >> 16) mod 256` is drained into level 1, preceded by
the level-3 stage. -/
def tw_cascade_high (w : ph_timerwheel) : ph_timerwheel :=
  if w.pos / PHENOM_WHEEL_SIZE % PHENOM_WHEEL_SIZE = 0 then
    tw_cascade_slot (tw_cascade_high2 w) 2 (w.pos / PHENOM_WHEEL_SIZE ^ 2 % PHENOM_WHEEL_SIZE)
  else w

/-- Modelled from the spec: the cascade phase of one tick step (spec
sections 4.4 step 2 and 4.5).  At a slot-zero boundary (`pos mod 256 =
0`, and the wheel has ticked at least once) level 1 slot
`(pos >> 8) mod 256` is drained into level 0; if that slot index is
itself 0, level 2 is first drained into level 1, and likewise level 3. -/
def tw_do_cascades (w : ph_timerwheel) : ph_timerwheel :=
  if w.pos % PHENOM_WHEEL_SIZE = 0 ∧ 0 < w.pos then
    tw_cascade_slot (tw_cascade_high w) 1 (w.pos / PHENOM_WHEEL_SIZE % PHENOM_WHEEL_SIZE)
  else w

/-- Modelled from the spec: one step of the tick engine (spec section
4.4): cascade at slot-zero boundaries, drain level-0 slot
`pos mod 256` (unlinking each timer and clearing `active` before it is
handed to the dispatch callback together with the caller's `now`), then
advance `next_run` by one tick.  Dispatch callbacks are modelled as
observers: the returned list is the dispatch trace of this step. -/
def tw_tick_step (w : ph_timerwheel) (now : Nat) :
    ph_timerwheel × List (ph_timerwheel_timer × Nat) :=
  let w1 := tw_do_cascades w
  let s0 := w1.pos % PHENOM_WHEEL_SIZE
  let fired := w1.entries.filter (fun e => e.level == 0 && e.slot == s0)
  let rest := w1.entries.filter (fun e => !(e.level == 0 && e.slot == s0))
  ({ w1 with entries := rest, pos := w1.pos + 1 },
   fired.map (fun e => ({ e.timer with active := false }, now)))

/-- Modelled from the spec: the number of iterations of the tick loop
`while (next_run <= now) { step; next_run += tick_resolution; }` of
spec section 4.4, for a positive tick resolution. -/
def tw_nsteps (w : ph_timerwheel) (now : Nat) : Nat :=
  if w.next_run ≤ now then (now - w.next_run) / w.tick_resolution + 1 else 0

/-- Modelled from the spec: the tick loop of section 4.4 unrolled a
given number of steps, accumulating the dispatch trace and the
dispatched-timer count that `ph_timerwheel_tick` returns. -/
def tw_tick_loop :
    ph_timerwheel → Nat → Nat → ph_timerwheel × List (ph_timerwheel_timer × Nat) × Nat
  | w, _, 0 => (w, [], 0)
  | w, now, Nat.succ k =>
    let st := tw_tick_step w now
    let rest := tw_tick_loop st.1 now k
    (rest.1, st.2 ++ rest.2.1, st.2.length + rest.2.2)

/-- Modelled from the spec: `ph_timerwheel_tick` (declared in
`include/phenom/timerwheel.h`; body not in the sources).  Advances
`next_run` in tick-sized steps until `next_run > now`, dispatching the
level-0 timers of the serviced slot at each step, and returns the
updated wheel, the dispatch trace and the number of timers dispatched. -/
def ph_timerwheel_tick (w : ph_timerwheel) (now : Nat) :
    ph_timerwheel × List (ph_timerwheel_timer × Nat) × Nat :=
  tw_tick_loop w now (tw_nsteps w now)

/-- An operation applied to a wheel by its callers: arm a timer, cancel
the armed timer with a given identity, or tick at a given time. -/
inductive wheel_op where
  | insert (t : ph_timerwheel_timer)
  | remove (id : Nat)
  | tick (now : Nat)
deriving DecidableEq

/-- Apply one caller operation to a wheel, extending the cumulative
dispatch trace. -/
def tw_run_op (s : ph_timerwheel × List (ph_timerwheel_timer × Nat)) (op : wheel_op) :
    ph_timerwheel × List (ph_timerwheel_timer × Nat) :=
  match op with
  | .insert t => ((ph_timerwheel_insert s.1 t).1, s.2)
  | .remove i =>
    ({ s.1 with entries := s.1.entries.filter (fun e => e.timer.id != i) }, s.2)
  | .tick now =>
    let r := ph_timerwheel_tick s.1 now
    (r.1, s.2 ++ r.2.1)

/-- Run a sequence of caller operations from a wheel, accumulating the
dispatch trace. -/
def tw_run (w : ph_timerwheel) (ops : List wheel_op) :
    ph_timerwheel × List (ph_timerwheel_timer × Nat) :=
  ops.foldl tw_run_op (w, [])

/-- Number of entries carrying a given timer identity. -/
def tw_count_id (es : List tw_entry) (i : Nat) : Nat :=
  es.countP (fun e => e.timer.id == i)

/-- Number of dispatch-trace records carrying a given timer identity. -/
def tw_trace_count (tr : List (ph_timerwheel_timer × Nat)) (i : Nat) : Nat :=
  tr.countP (fun p => p.1.id == i)

/-! ### Logging and panic (embedded from the logging source file) -/

/-- `PH_LOG_PANIC`: index 0 of the `log_labels` table in the logging
source ("panic" is the first label). -/
def PH_LOG_PANIC : Nat := 0

/-- `PH_LOG_ERR`: index 3 of the `log_labels` table in the logging
source; the initial value of the static `log_level`. -/
def PH_LOG_ERR : Nat := 3

/-- Observable effects of the logging layer: a log record emitted at a
level (via `ph_logv`), or a call to `abort()`. -/
inductive log_action where
  | line (level : Nat) (text : String)
  | abort_called
deriving DecidableEq

/-- `ph_logv` from the logging source, at the granularity of emitted log
records: returns early when `level > log_level` or when the format
string is empty, otherwise emits one record carrying the level and the
format string (timestamp/thread decoration, the hook invocation and the
stderr write do not change which records are emitted).  `log_level` is
the static level threshold, passed explicitly here. -/
def ph_logv (log_level level : Nat) (fmt : String) : List log_action :=
  if log_level < level then []
  else if fmt.length = 0 then []
  else [.line level fmt]

/-- `ph_log` from the logging source: a varargs wrapper around
`ph_logv`. -/
def ph_log (log_level level : Nat) (fmt : String) : List log_action :=
  ph_logv log_level level fmt

/-- `ph_log_stacktrace` from the logging source: logs each backtrace
symbol line via `ph_log` at the given level.  `frames` stands for the
strings produced by `backtrace_symbols` (the function body is compiled
only when backtrace support is available). -/
def ph_log_stacktrace (log_level level : Nat) (frames : List String) : List log_action :=
  (frames.map (fun s => ph_log log_level level s)).flatten

/-- `ph_panic` from the logging source: logs the formatted message via
`ph_logv` at `PH_LOG_PANIC`, logs "Fatal error detected at:" and the
stack trace at `PH_LOG_PANIC`, then calls `abort()`.  The second
component is the (absent) return value: `none` because `abort()`
terminates the process, so control never returns to the caller. -/
def ph_panic (log_level : Nat) (fmt : String) (frames : List String) :
    List log_action × Option Unit :=
  ((ph_logv log_level PH_LOG_PANIC fmt
    ++ ph_log log_level PH_LOG_PANIC "Fatal error detected at:"
    ++ ph_log_stacktrace log_level PH_LOG_PANIC frames)
    ++ [.abort_called], none)

/-! ### Per-timer operation traces (for the modification-detection claim) -/

/-- The wheel-side events that can touch one timer node: an `insert`
call, a `remove` call, or being unlinked for dispatch by the tick
engine (`fire`). -/
inductive timer_op where
  | insert
  | remove
  | fire
deriving DecidableEq

/-- The caller-owned timer node after one event: `insert` and `remove`
update it exactly as `ph_timerwheel_insert` / `ph_timerwheel_remove`
return it; `fire` is the tick engine unlinking the node and clearing
`active` before dispatch (spec section 4.6; no generation change). -/
def timer_op_step (w : ph_timerwheel) (t : ph_timerwheel_timer) : timer_op → ph_timerwheel_timer
  | .insert => (ph_timerwheel_insert w t).2.1
  | .remove => (ph_timerwheel_remove w t).2.1
  | .fire => { t with active := false }

/-- Ghost state (armed?, removed-since-last-successful-insert?) tracking
a timer through a sequence of events: a successful insert (on a
detached timer) clears the flag, a successful remove (on an armed
timer) sets it, a dispatch leaves it. -/
def tw_removed_since (s : Bool × Bool) : timer_op → Bool × Bool
  | .insert => if s.1 then s else (true, false)
  | .remove => if s.1 then (false, true) else s
  | .fire => (false, s.2)

/-! ### Basic facts about the wheel operations -/

@[simp] lemma tw_place_start (w : ph_timerwheel) (t : ph_timerwheel_timer) :
    (tw_place w t).start = w.start := rfl

@[simp] lemma tw_place_res (w : ph_timerwheel) (t : ph_timerwheel_timer) :
    (tw_place w t).tick_resolution = w.tick_resolution := rfl

@[simp] lemma tw_place_pos (w : ph_timerwheel) (t : ph_timerwheel_timer) :
    (tw_place w t).pos = w.pos := rfl

@[simp] lemma tw_place_entries (w : ph_timerwheel) (t : ph_timerwheel_timer) :
    (tw_place w t).entries = tw_entry_for w t :: w.entries := rfl

lemma tw_place_foldl_fields (l : List tw_entry) (w : ph_timerwheel) :
    (l.foldl (fun w' e => tw_place w' e.timer) w).start = w.start ∧
    (l.foldl (fun w' e => tw_place w' e.timer) w).tick_resolution = w.tick_resolution ∧
    (l.foldl (fun w' e => tw_place w' e.timer) w).pos = w.pos := by
  induction l generalizing w with
  | nil => exact ⟨rfl, rfl, rfl⟩
  | cons e rest ih => simpa using ih (tw_place w e.timer)

@[simp] lemma tw_cascade_slot_start (w : ph_timerwheel) (lvl slot : Nat) :
    (tw_cascade_slot w lvl slot).start = w.start :=
  (tw_place_foldl_fields _ _).1

@[simp] lemma tw_cascade_slot_res (w : ph_timerwheel) (lvl slot : Nat) :
    (tw_cascade_slot w lvl slot).tick_resolution = w.tick_resolution :=
  (tw_place_foldl_fields _ _).2.1

@[simp] lemma tw_cascade_slot_pos (w : ph_timerwheel) (lvl slot : Nat) :
    (tw_cascade_slot w lvl slot).pos = w.pos :=
  (tw_place_foldl_fields _ _).2.2

@[simp] lemma tw_cascade_high2_start (w : ph_timerwheel) :
    (tw_cascade_high2 w).start = w.start := by
  unfold tw_cascade_high2; split <;> simp

@[simp] lemma tw_cascade_high2_res (w : ph_timerwheel) :
    (tw_cascade_high2 w).tick_resolution = w.tick_resolution := by
  unfold tw_cascade_high2; split <;> simp

@[simp] lemma tw_cascade_high2_pos (w : ph_timerwheel) :
    (tw_cascade_high2 w).pos = w.pos := by
  unfold tw_cascade_high2; split <;> simp

@[simp] lemma tw_cascade_high_start (w : ph_timerwheel) :
    (tw_cascade_high w).start = w.start := by
  unfold tw_cascade_high; split <;> simp

@[simp] lemma tw_cascade_high_res (w : ph_timerwheel) :
    (tw_cascade_high w).tick_resolution = w.tick_resolution := by
  unfold tw_cascade_high; split <;> simp

@[simp] lemma tw_cascade_high_pos (w : ph_timerwheel) :
    (tw_cascade_high w).pos = w.pos := by
  unfold tw_cascade_high; split <;> simp

@[simp] lemma tw_do_cascades_start (w : ph_timerwheel) :
    (tw_do_cascades w).start = w.start := by
  unfold tw_do_cascades; split <;> simp

@[simp] lemma tw_do_cascades_res (w : ph_timerwheel) :
    (tw_do_cascades w).tick_resolution = w.tick_resolution := by
  unfold tw_do_cascades; split <;> simp

@[simp] lemma tw_do_cascades_pos (w : ph_timerwheel) :
    (tw_do_cascades w).pos = w.pos := by
  unfold tw_do_cascades; split <;> simp

@[simp] lemma tw_tick_step_start (w : ph_timerwheel) (now : Nat) :
    (tw_tick_step w now).1.start = w.start := by
  unfold tw_tick_step; simp

@[simp] lemma tw_tick_step_res (w : ph_timerwheel) (now : Nat) :
    (tw_tick_step w now).1.tick_resolution = w.tick_resolution := by
  unfold tw_tick_step; simp

@[simp] lemma tw_tick_step_pos (w : ph_timerwheel) (now : Nat) :
    (tw_tick_step w now).1.pos = w.pos + 1 := by
  unfold tw_tick_step; simp

lemma tw_tick_step_next_run (w : ph_timerwheel) (now : Nat) :
    (tw_tick_step w now).1.next_run = w.next_run + w.tick_resolution := by
  simp [ph_timerwheel.next_run, Nat.succ_mul, Nat.add_assoc]

lemma tw_tick_loop_next_run (k : Nat) (w : ph_timerwheel) (now : Nat) :
    (tw_tick_loop w now k).1.next_run = w.next_run + k * w.tick_resolution ∧
    (tw_tick_loop w now k).1.tick_resolution = w.tick_resolution ∧
    (tw_tick_loop w now k).1.pos = w.pos + k ∧
    (tw_tick_loop w now k).1.start = w.start := by
  induction k generalizing w with
  | zero => simp [tw_tick_loop]
  | succ k ih =>
    have h := ih (tw_tick_step w now).1
    simp only [tw_tick_loop] at *
    refine ⟨?_, ?_, ?_, ?_⟩
    · rw [h.1, tw_tick_step_next_run, tw_tick_step_res]; ring
    · rw [h.2.1, tw_tick_step_res]
    · rw [h.2.2.1, tw_tick_step_pos]; omega
    · rw [h.2.2.2, tw_tick_step_start]

lemma tw_tick_loop_count (k : Nat) (w : ph_timerwheel) (now : Nat) :
    (tw_tick_loop w now k).2.2 = (tw_tick_loop w now k).2.1.length := by
  induction k generalizing w with
  | zero => simp [tw_tick_loop]
  | succ k ih => simp [tw_tick_loop, ih]

/-! ### The placement invariant

A timer linked at level `L`, slot `s` is serviced (cascaded for `L > 0`,
dispatched for `L = 0`) exactly when the wheel position reaches the tick
`T` the router aimed it at.  The invariant below captures where an
entry can legitimately sit when the wheel is at position `p`:

* level 0: there is a target tick `T` with `slot = T mod 256`,
  `p ≤ T < p + 256`, and `T` is the timer's due tick (`start + T·res ≤
  due < start + (T+1)·res`) unless the timer was inserted overdue, in
  which case `T` is the position it was inserted at (`T = p` until the
  next step dispatches it);
* level `L ≥ 1`: the target tick is `T = (due - start) / res`; the slot
  is its level-`L` radix digit, and the boundary `B = (T >> 8L) << 8L`
  at which the cascade will drain this slot lies in `(p - 256^(L+1), p]`
  shifted forward: `p ≤ B < p + 256^(L+1)`, with `B ≥ 256^L` so the
  wheel has a boundary to reach. -/

/-- Target tick of a timer relative to the wheel epoch. -/
def tw_T (start res : Nat) (e : tw_entry) : Nat := (e.timer.due - start) / res

/-- The cascade boundary of an entry: its target tick with the low
`8·level` bits cleared. -/
def tw_bB (start res : Nat) (e : tw_entry) : Nat :=
  tw_T start res e / 256 ^ e.level * 256 ^ e.level

/-- Placement invariant for one linked entry when the wheel sits at
position `p` (weak form: a level-0 entry may be an overdue insert whose
target is the current position). -/
def tw_entry_inv (start res p : Nat) (e : tw_entry) : Prop :=
  if e.level = 0 then
    ∃ T, e.slot = T % 256 ∧ p ≤ T ∧ T < p + 256 ∧
      e.timer.due < start + (T + 1) * res ∧
      (start + T * res ≤ e.timer.due ∨ T = p)
  else
    1 ≤ e.level ∧ e.level ≤ 3 ∧
    e.slot = tw_T start res e / 256 ^ e.level % 256 ∧
    p ≤ tw_bB start res e ∧
    tw_bB start res e < p + 256 ^ (e.level + 1) ∧
    256 ^ e.level ≤ tw_bB start res e

/-- Placement invariant, strict form: level-0 entries carry the due
lower bound (they are at their due tick's slot).  Holds for every entry
that survives at least one tick step. -/
def tw_entry_inv_s (start res p : Nat) (e : tw_entry) : Prop :=
  if e.level = 0 then
    ∃ T, e.slot = T % 256 ∧ p ≤ T ∧ T < p + 256 ∧
      e.timer.due < start + (T + 1) * res ∧
      start + T * res ≤ e.timer.due
  else
    1 ≤ e.level ∧ e.level ≤ 3 ∧
    e.slot = tw_T start res e / 256 ^ e.level % 256 ∧
    p ≤ tw_bB start res e ∧
    tw_bB start res e < p + 256 ^ (e.level + 1) ∧
    256 ^ e.level ≤ tw_bB start res e

lemma tw_entry_inv_of_s (start res p : Nat) (e : tw_entry)
    (h : tw_entry_inv_s start res p e) : tw_entry_inv start res p e := by
  unfold tw_entry_inv_s at h
  unfold tw_entry_inv
  split at h <;> rename_i hl <;> simp only [hl, if_true, if_false]
  · obtain ⟨T, h1, h2, h3, h4, h5⟩ := h
    exact ⟨T, h1, h2, h3, h4, Or.inl h5⟩
  · exact h

@[simp] lemma tw_SIZE_eq : PHENOM_WHEEL_SIZE = 256 := rfl

/-! ### List-level characterizations of the cascade and drain -/

lemma tw_countP_filter_split (l : List tw_entry) (p q : tw_entry → Bool) :
    l.countP p = (l.filter q).countP p + (l.filter (fun a => !(q a))).countP p := by
  induction l with
  | nil => simp
  | cons a l ih =>
    by_cases h : q a = true
    · by_cases hp : p a = true <;>
        simp [List.countP_cons, List.filter_cons, h, hp, ih] <;> omega
    · have h' : q a = false := by revert h; cases q a <;> simp
      by_cases hp : p a = true <;>
        simp [List.countP_cons, List.filter_cons, h', hp, ih] <;> omega

lemma tw_countP_filter_split' (l : List tw_entry) (p q r : tw_entry → Bool)
    (hqr : ∀ a, r a = !(q a)) :
    l.countP p = (l.filter q).countP p + (l.filter r).countP p := by
  have h : l.filter r = l.filter (fun a => !(q a)) := by
    apply List.filter_congr
    intro a _
    exact hqr a
  rw [h]
  exact tw_countP_filter_split l p q

lemma tw_entry_for_congr {w w' : ph_timerwheel}
    (h1 : w'.start = w.start) (h2 : w'.tick_resolution = w.tick_resolution)
    (h3 : w'.pos = w.pos) (t : ph_timerwheel_timer) :
    tw_entry_for w' t = tw_entry_for w t := by
  unfold tw_entry_for ph_timerwheel.delta_ticks ph_timerwheel.next_run
  rw [h1, h2, h3]

lemma tw_place_foldl_entries (l : List tw_entry) (w : ph_timerwheel) :
    (l.foldl (fun w' e => tw_place w' e.timer) w).entries
      = (l.map (fun e => tw_entry_for w e.timer)).reverse ++ w.entries := by
  induction l generalizing w with
  | nil => simp
  | cons e rest ih =>
    have hmap : rest.map (fun x => tw_entry_for (tw_place w e.timer) x.timer)
        = rest.map (fun x => tw_entry_for w x.timer) := by
      apply List.map_congr_left
      intro a _
      exact tw_entry_for_congr rfl rfl rfl a.timer
    calc (List.foldl (fun w' e => tw_place w' e.timer) (tw_place w e.timer) rest).entries
        = (rest.map (fun x => tw_entry_for (tw_place w e.timer) x.timer)).reverse
            ++ (tw_place w e.timer).entries := ih (tw_place w e.timer)
      _ = (rest.map (fun x => tw_entry_for w x.timer)).reverse
            ++ (tw_entry_for w e.timer :: w.entries) := by rw [hmap, tw_place_entries]
      _ = ((e :: rest).map (fun x => tw_entry_for w x.timer)).reverse ++ w.entries := by
            simp

lemma tw_cascade_slot_entries (w : ph_timerwheel) (lvl slot : Nat) :
    (tw_cascade_slot w lvl slot).entries
      = ((w.entries.filter (fun e => e.level == lvl && e.slot == slot)).map
          (fun e => tw_entry_for w e.timer)).reverse
        ++ w.entries.filter (fun e => !(e.level == lvl && e.slot == slot)) := by
  unfold tw_cascade_slot
  rw [tw_place_foldl_entries]
  rfl

lemma tw_cascade_slot_countP (w : ph_timerwheel) (lvl slot i : Nat) :
    tw_count_id (tw_cascade_slot w lvl slot).entries i = tw_count_id w.entries i := by
  unfold tw_count_id
  rw [tw_cascade_slot_entries, List.countP_append, List.countP_reverse, List.countP_map]
  rw [List.countP_congr (fun e _ => Iff.rfl :
    ∀ e ∈ w.entries.filter (fun e => e.level == lvl && e.slot == slot),
      ((fun e : tw_entry => e.timer.id == i) ∘ (fun e => tw_entry_for w e.timer)) e = true
        ↔ (fun e : tw_entry => e.timer.id == i) e = true)]
  exact (tw_countP_filter_split w.entries _ _).symm

lemma tw_cascade_slot_mem (w : ph_timerwheel) (lvl slot : Nat) (e' : tw_entry)
    (h : e' ∈ (tw_cascade_slot w lvl slot).entries) :
    (e' ∈ w.entries ∧ ¬(e'.level = lvl ∧ e'.slot = slot)) ∨
    (∃ e, e ∈ w.entries ∧ e.level = lvl ∧ e.slot = slot ∧ e' = tw_entry_for w e.timer) := by
  rw [tw_cascade_slot_entries] at h
  rcases List.mem_append.1 h with h1 | h2
  · right
    rw [List.mem_reverse] at h1
    obtain ⟨e, he, heq⟩ := List.mem_map.1 h1
    have hf := List.mem_filter.1 he
    refine ⟨e, hf.1, ?_, ?_, heq.symm⟩
    · have := hf.2
      simp only [Bool.and_eq_true, beq_iff_eq] at this
      exact this.1
    · have := hf.2
      simp only [Bool.and_eq_true, beq_iff_eq] at this
      exact this.2
  · left
    have hf := List.mem_filter.1 h2
    refine ⟨hf.1, ?_⟩
    intro hc
    have hb : (e'.level == lvl && e'.slot == slot) = true := by
      simp [hc.1, hc.2]
    have hcontra := hf.2
    rw [hb] at hcontra
    simp at hcontra

/-! ### Arithmetic facts about routing -/

lemma tw_target_eq (w : ph_timerwheel) (t : ph_timerwheel_timer)
    (hres : 0 < w.tick_resolution) (hpos : 0 < w.delta_ticks t.due) :
    (t.due - w.start) / w.tick_resolution = w.pos + w.delta_ticks t.due := by
  have hgt : w.next_run < t.due := by
    by_contra hle
    push_neg at hle
    have : w.delta_ticks t.due = 0 := by
      unfold ph_timerwheel.delta_ticks
      rw [Nat.sub_eq_zero_of_le hle, Nat.zero_div]
    omega
  have hnr : w.next_run = w.start + w.pos * w.tick_resolution := rfl
  have hsplit : t.due - w.start = (t.due - w.next_run) + w.pos * w.tick_resolution := by
    omega
  rw [hsplit, Nat.add_mul_div_right _ _ hres]
  unfold ph_timerwheel.delta_ticks
  omega

lemma tw_boundary_window (p d T m : Nat) (hm : 0 < m)
    (hT : T = p + d) (hlo : m ≤ d) (hhi : d < 256 * m) :
    p < T / m * m ∧ T / m * m < p + 256 * m ∧ m ≤ T / m * m := by
  have hdm : T / m * m + T % m = T := by
    rw [Nat.mul_comm]
    exact Nat.div_add_mod T m
  have hmod : T % m < m := Nat.mod_lt _ hm
  have hTm : m ≤ T := by omega
  have h1 : 1 ≤ T / m := (Nat.one_le_div_iff hm).2 hTm
  have hge : m ≤ T / m * m := by
    calc m = 1 * m := (one_mul m).symm
    _ ≤ T / m * m := Nat.mul_le_mul_right m h1
  exact ⟨by omega, by omega, hge⟩

lemma tw_recompute (w : ph_timerwheel) (e : tw_entry)
    (hres : 0 < w.tick_resolution)
    (hp : w.pos ≤ tw_T w.start w.tick_resolution e) :
    w.delta_ticks e.timer.due = tw_T w.start w.tick_resolution e - w.pos := by
  unfold tw_T at *
  unfold ph_timerwheel.delta_ticks
  have hnr : w.next_run = w.start + w.pos * w.tick_resolution := rfl
  have hmul : w.pos * w.tick_resolution ≤ e.timer.due - w.start :=
    (Nat.le_div_iff_mul_le hres).1 hp
  have hsub : e.timer.due - w.next_run
      = (e.timer.due - w.start) - w.tick_resolution * w.pos := by
    rw [hnr, Nat.mul_comm w.tick_resolution w.pos]
    omega
  rw [hsub, Nat.sub_mul_div _ _ _ (by rw [Nat.mul_comm]; exact hmul)]

lemma tw_bB_mod (start res : Nat) (e : tw_entry) :
    tw_bB start res e + tw_T start res e % 256 ^ e.level = tw_T start res e ∧
    tw_T start res e % 256 ^ e.level < 256 ^ e.level := by
  unfold tw_bB
  constructor
  · rw [Nat.mul_comm]
    exact Nat.div_add_mod _ _
  · exact Nat.mod_lt _ (Nat.pos_pow_of_pos _ (by norm_num))

/-- Placement establishes the invariant: routing a timer whose tick
delta is expressible in 32 bits links it at a slot satisfying
`tw_entry_inv`, and strictly ahead of the current boundary when it
lands above level 0. -/
lemma tw_place_inv (w : ph_timerwheel) (t : ph_timerwheel_timer)
    (hres : 0 < w.tick_resolution)
    (hd32 : w.delta_ticks t.due < 256 ^ 4) :
    tw_entry_inv w.start w.tick_resolution w.pos (tw_entry_for w t) ∧
    (1 ≤ (tw_entry_for w t).level →
      w.pos < tw_bB w.start w.tick_resolution (tw_entry_for w t)) := by
  set d := w.delta_ticks t.due with hd
  set p := w.pos with hp
  have hnr : w.next_run = w.start + p * w.tick_resolution := rfl
  by_cases h0 : d < 256
  · -- level 0
    have hroute : tw_route p d = (0, (p + d) % 256) := by
      unfold tw_route
      simp only [tw_SIZE_eq]
      rw [if_pos h0]
    have hef : tw_entry_for w t = ⟨0, (p + d) % 256, t⟩ := by
      unfold tw_entry_for
      rw [← hd, ← hp, hroute]
    rw [hef]
    constructor
    · unfold tw_entry_inv
      simp only [if_pos rfl]
      refine ⟨p + d, rfl, Nat.le_add_right _ _, by omega, ?_, ?_⟩
      · -- due < start + (p + d + 1) * res
        by_cases hle : t.due ≤ w.next_run
        · have hexp : (p + d + 1) * w.tick_resolution
              = p * w.tick_resolution + d * w.tick_resolution + w.tick_resolution := by ring
          omega
        · push_neg at hle
          have hmod : (t.due - w.next_run) % w.tick_resolution < w.tick_resolution :=
            Nat.mod_lt _ hres
          have hdm : d * w.tick_resolution + (t.due - w.next_run) % w.tick_resolution
              = t.due - w.next_run := by
            rw [hd]
            unfold ph_timerwheel.delta_ticks
            rw [Nat.mul_comm]
            exact Nat.div_add_mod _ _
          have hexp : (p + d + 1) * w.tick_resolution
              = p * w.tick_resolution + d * w.tick_resolution + w.tick_resolution := by ring
          omega
      · -- lower bound or overdue
        by_cases hdz : d = 0
        · right; omega
        · left
          have h1d : 1 ≤ d := by omega
          have hge : d * w.tick_resolution ≤ t.due - w.next_run := by
            rw [hd]
            unfold ph_timerwheel.delta_ticks
            exact Nat.div_mul_le_self _ _
          have hpos : 0 < d * w.tick_resolution := by positivity
          have hexp : (p + d) * w.tick_resolution
              = p * w.tick_resolution + d * w.tick_resolution := by ring
          omega
    · intro hlev
      simp at hlev
  · -- levels 1..3
    push_neg at h0
    have hdpos : 0 < d := by omega
    have hT : (t.due - w.start) / w.tick_resolution = p + d := tw_target_eq w t hres hdpos
    by_cases h1 : d < 256 ^ 2
    · have hroute : tw_route p d = (1, (p + d) / 256 % 256) := by
        unfold tw_route
        simp only [tw_SIZE_eq]
        rw [if_neg (by omega), if_pos h1]
      have hef : tw_entry_for w t = ⟨1, (p + d) / 256 % 256, t⟩ := by
        unfold tw_entry_for
        rw [← hd, ← hp, hroute]
      obtain ⟨hw1, hw2, hw3⟩ :=
        tw_boundary_window p d (p + d) 256 (by norm_num) rfl h0 (by omega)
      rw [hef]
      constructor
      · unfold tw_entry_inv tw_bB
        rw [if_neg (by simp)]
        simp only [tw_T]
        rw [hT]
        refine ⟨by norm_num, by norm_num, by norm_num, by omega, by omega, by omega⟩
      · intro _
        unfold tw_bB
        simp only [tw_T]
        rw [hT]
        omega
    · push_neg at h1
      by_cases h2 : d < 256 ^ 3
      · have hroute : tw_route p d = (2, (p + d) / 256 ^ 2 % 256) := by
          unfold tw_route
          simp only [tw_SIZE_eq]
          rw [if_neg (by omega), if_neg (by omega), if_pos h2]
        have hef : tw_entry_for w t = ⟨2, (p + d) / 256 ^ 2 % 256, t⟩ := by
          unfold tw_entry_for
          rw [← hd, ← hp, hroute]
        obtain ⟨hw1, hw2, hw3⟩ :=
          tw_boundary_window p d (p + d) (256 ^ 2) (by norm_num) rfl h1 (by
            have h : (256 : Nat) * 256 ^ 2 = 256 ^ 3 := by norm_num
            omega)
        rw [hef]
        constructor
        · unfold tw_entry_inv tw_bB
          rw [if_neg (by simp)]
          simp only [tw_T]
          rw [hT]
          refine ⟨by norm_num, by norm_num, by norm_num, by omega, by omega, by omega⟩
        · intro _
          unfold tw_bB
          simp only [tw_T]
          rw [hT]
          omega
      · push_neg at h2
        have hroute : tw_route p d = (3, (p + d) / 256 ^ 3 % 256) := by
          unfold tw_route
          simp only [tw_SIZE_eq]
          rw [if_neg (by omega), if_neg (by omega), if_neg (by omega)]
        have hef : tw_entry_for w t = ⟨3, (p + d) / 256 ^ 3 % 256, t⟩ := by
          unfold tw_entry_for
          rw [← hd, ← hp, hroute]
        obtain ⟨hw1, hw2, hw3⟩ :=
          tw_boundary_window p d (p + d) (256 ^ 3) (by norm_num) rfl h2 (by
            have h : (256 : Nat) * 256 ^ 3 = 256 ^ 4 := by norm_num
            omega)
        rw [hef]
        constructor
        · unfold tw_entry_inv tw_bB
          rw [if_neg (by simp)]
          simp only [tw_T]
          rw [hT]
          refine ⟨by norm_num, by norm_num, by norm_num, by omega, by omega, by omega⟩
        · intro _
          unfold tw_bB
          simp only [tw_T]
          rw [hT]
          omega

/-! ### Tracking entries through a cascade -/

lemma tw_cascade_high2_countP (w : ph_timerwheel) (i : Nat) :
    tw_count_id (tw_cascade_high2 w).entries i = tw_count_id w.entries i := by
  unfold tw_cascade_high2
  split
  · rw [tw_cascade_slot_countP]
  · rfl

lemma tw_cascade_high_countP (w : ph_timerwheel) (i : Nat) :
    tw_count_id (tw_cascade_high w).entries i = tw_count_id w.entries i := by
  unfold tw_cascade_high
  split
  · rw [tw_cascade_slot_countP, tw_cascade_high2_countP]
  · rfl

lemma tw_do_cascades_countP (w : ph_timerwheel) (i : Nat) :
    tw_count_id (tw_do_cascades w).entries i = tw_count_id w.entries i := by
  unfold tw_do_cascades
  split
  · rw [tw_cascade_slot_countP, tw_cascade_high_countP]
  · rfl

lemma tw_cascade_high2_mem (w : ph_timerwheel) (e' : tw_entry)
    (h : e' ∈ (tw_cascade_high2 w).entries) :
    (e' ∈ w.entries ∧
      (w.pos / 256 ^ 2 % 256 = 0 → ¬(e'.level = 3 ∧ e'.slot = w.pos / 256 ^ 3 % 256))) ∨
    (w.pos / 256 ^ 2 % 256 = 0 ∧
      ∃ e, e ∈ w.entries ∧ e.level = 3 ∧ e.slot = w.pos / 256 ^ 3 % 256 ∧
        e' = tw_entry_for w e.timer) := by
  unfold tw_cascade_high2 at h
  simp only [tw_SIZE_eq] at h
  by_cases hc : w.pos / 256 ^ 2 % 256 = 0
  · rw [if_pos hc] at h
    rcases tw_cascade_slot_mem _ _ _ _ h with ⟨h1, h2⟩ | ⟨e, he, hl, hs, heq⟩
    · exact Or.inl ⟨h1, fun _ => h2⟩
    · exact Or.inr ⟨hc, e, he, hl, hs, heq⟩
  · rw [if_neg hc] at h
    exact Or.inl ⟨h, fun hcc => absurd hcc hc⟩

lemma tw_cascade_high_mem (w : ph_timerwheel) (e' : tw_entry)
    (h : e' ∈ (tw_cascade_high w).entries) :
    (e' ∈ w.entries ∧
      (w.pos / 256 % 256 = 0 → ¬(e'.level = 2 ∧ e'.slot = w.pos / 256 ^ 2 % 256)) ∧
      (w.pos / 256 % 256 = 0 → w.pos / 256 ^ 2 % 256 = 0 →
        ¬(e'.level = 3 ∧ e'.slot = w.pos / 256 ^ 3 % 256))) ∨
    (w.pos / 256 % 256 = 0 ∧
      ∃ e, e ∈ w.entries ∧ e' = tw_entry_for w e.timer ∧
        ((e.level = 2 ∧ e.slot = w.pos / 256 ^ 2 % 256) ∨
         (w.pos / 256 ^ 2 % 256 = 0 ∧ e.level = 3 ∧ e.slot = w.pos / 256 ^ 3 % 256))) := by
  unfold tw_cascade_high at h
  simp only [tw_SIZE_eq] at h
  by_cases hc : w.pos / 256 % 256 = 0
  · rw [if_pos hc] at h
    rcases tw_cascade_slot_mem _ _ _ _ h with ⟨h1, h2⟩ | ⟨e, he, hl, hs, heq⟩
    · rcases tw_cascade_high2_mem w e' h1 with ⟨h3, h4⟩ | ⟨hc2, e, he, hl, hs, heq⟩
      · exact Or.inl ⟨h3, fun _ => h2, fun _ => h4⟩
      · exact Or.inr ⟨hc, e, he, heq, Or.inr ⟨hc2, hl, hs⟩⟩
    · have heq' : e' = tw_entry_for w e.timer := by
        rw [heq]
        exact tw_entry_for_congr (by simp) (by simp) (by simp) e.timer
      rcases tw_cascade_high2_mem w e he with ⟨h3, _⟩ | ⟨hc2, e0, he0, hl0, hs0, heq0⟩
      · exact Or.inr ⟨hc, e, h3, heq', Or.inl ⟨hl, hs⟩⟩
      · have ht : e.timer = e0.timer := by rw [heq0]; rfl
        exact Or.inr ⟨hc, e0, he0, by rw [heq', ht], Or.inr ⟨hc2, hl0, hs0⟩⟩
  · rw [if_neg hc] at h
    exact Or.inl ⟨h, fun hcc => absurd hcc hc, fun hcc _ => absurd hcc hc⟩

lemma tw_do_cascades_mem (w : ph_timerwheel) (e' : tw_entry)
    (h : e' ∈ (tw_do_cascades w).entries) :
    (e' ∈ w.entries ∧
      (w.pos % 256 = 0 → 0 < w.pos → ¬(e'.level = 1 ∧ e'.slot = w.pos / 256 % 256)) ∧
      (w.pos % 256 = 0 → 0 < w.pos → w.pos / 256 % 256 = 0 →
        ¬(e'.level = 2 ∧ e'.slot = w.pos / 256 ^ 2 % 256)) ∧
      (w.pos % 256 = 0 → 0 < w.pos → w.pos / 256 % 256 = 0 → w.pos / 256 ^ 2 % 256 = 0 →
        ¬(e'.level = 3 ∧ e'.slot = w.pos / 256 ^ 3 % 256))) ∨
    (w.pos % 256 = 0 ∧ 0 < w.pos ∧
      ∃ e, e ∈ w.entries ∧ e' = tw_entry_for w e.timer ∧
        ((e.level = 1 ∧ e.slot = w.pos / 256 % 256) ∨
         (w.pos / 256 % 256 = 0 ∧ e.level = 2 ∧ e.slot = w.pos / 256 ^ 2 % 256) ∨
         (w.pos / 256 % 256 = 0 ∧ w.pos / 256 ^ 2 % 256 = 0 ∧ e.level = 3 ∧
           e.slot = w.pos / 256 ^ 3 % 256))) := by
  unfold tw_do_cascades at h
  simp only [tw_SIZE_eq] at h
  by_cases hb : w.pos % 256 = 0 ∧ 0 < w.pos
  · rw [if_pos hb] at h
    rcases tw_cascade_slot_mem _ _ _ _ h with ⟨h1, h2⟩ | ⟨e, he, hl, hs, heq⟩
    · rcases tw_cascade_high_mem w e' h1 with ⟨h3, h4, h5⟩ | ⟨hc, e, he, heq, hor⟩
      · exact Or.inl ⟨h3, fun _ _ => h2, fun _ _ => h4, fun _ _ => h5⟩
      · refine Or.inr ⟨hb.1, hb.2, e, he, heq, ?_⟩
        rcases hor with ⟨hl, hs⟩ | ⟨hc2, hl, hs⟩
        · exact Or.inr (Or.inl ⟨hc, hl, hs⟩)
        · exact Or.inr (Or.inr ⟨hc, hc2, hl, hs⟩)
    · have heq' : e' = tw_entry_for w e.timer := by
        rw [heq]
        exact tw_entry_for_congr (by simp) (by simp) (by simp) e.timer
      rcases tw_cascade_high_mem w e he with ⟨h3, _, _⟩ | ⟨hc, e0, he0, heq0, hor⟩
      · exact Or.inr ⟨hb.1, hb.2, e, h3, heq', Or.inl ⟨hl, hs⟩⟩
      · have ht : e.timer = e0.timer := by rw [heq0]; rfl
        refine Or.inr ⟨hb.1, hb.2, e0, he0, by rw [heq', ht], ?_⟩
        rcases hor with ⟨hl0, hs0⟩ | ⟨hc2, hl0, hs0⟩
        · exact Or.inr (Or.inl ⟨hc, hl0, hs0⟩)
        · exact Or.inr (Or.inr ⟨hc, hc2, hl0, hs0⟩)
  · rw [if_neg hb] at h
    exact Or.inl ⟨h, fun h1 h2 => absurd ⟨h1, h2⟩ hb,
      fun h1 h2 _ => absurd ⟨h1, h2⟩ hb, fun h1 h2 _ _ => absurd ⟨h1, h2⟩ hb⟩

lemma tw_tick_step_entries (w : ph_timerwheel) (now : Nat) :
    (tw_tick_step w now).1.entries
      = (tw_do_cascades w).entries.filter
          (fun e => !(e.level == 0 && e.slot == w.pos % PHENOM_WHEEL_SIZE)) ∧
    (tw_tick_step w now).2
      = ((tw_do_cascades w).entries.filter
          (fun e => e.level == 0 && e.slot == w.pos % PHENOM_WHEEL_SIZE)).map
          (fun e => ({ e.timer with active := false }, now)) := by
  refine ⟨?_, ?_⟩ <;> simp only [tw_tick_step, tw_do_cascades_pos]

/-! ### Invariant preservation through one tick step -/

lemma tw_dvd_window_eq (m a b : Nat) (hma : m ∣ a) (hmb : m ∣ b)
    (h1 : a ≤ b) (h2 : b < a + m) : a = b := by
  have hd : m ∣ b - a := Nat.dvd_sub' hmb hma
  rcases Nat.eq_zero_or_pos (b - a) with hz | hz
  · omega
  · have := Nat.le_of_dvd hz hd
    omega

lemma tw_div_mod_zero (p m : Nat) (hm : 0 < m) (h : m ∣ p) :
    p / m % 256 = 0 ↔ m * 256 ∣ p := by
  obtain ⟨a, rfl⟩ := h
  rw [Nat.mul_div_cancel_left a hm]
  constructor
  · intro ha
    exact Nat.mul_dvd_mul_left m (Nat.dvd_of_mod_eq_zero ha)
  · intro ha
    have h256 : (256 : Nat) ∣ a := (Nat.mul_dvd_mul_iff_left hm).1 ha
    omega

lemma tw_window_boundary_eq (p B m : Nat) (hm : 0 < m)
    (hBd : m ∣ B) (hpd : m ∣ p) (hmod : B / m % 256 = p / m % 256)
    (hlo : p ≤ B) (hhi : B < p + 256 * m) : B = p := by
  obtain ⟨a, rfl⟩ := hpd
  obtain ⟨b, rfl⟩ := hBd
  rw [Nat.mul_div_cancel_left a hm, Nat.mul_div_cancel_left b hm] at hmod
  have hab : a ≤ b := Nat.le_of_mul_le_mul_left hlo hm
  have hba : b < a + 256 := by
    have hexp : m * a + 256 * m = m * (a + 256) := by ring
    have := hhi
    rw [hexp] at this
    exact Nat.lt_of_mul_lt_mul_left this
  have hba' : b = a := by omega
  rw [hba']

lemma tw_replaced_core_aux (w : ph_timerwheel) (e0 : tw_entry)
    (hres : 0 < w.tick_resolution)
    (hinv0 : tw_entry_inv w.start w.tick_resolution w.pos e0)
    (hl1 : 1 ≤ e0.level)
    (hpdvd : 256 ^ e0.level ∣ w.pos)
    (hs : e0.slot = w.pos / 256 ^ e0.level % 256) :
    tw_bB w.start w.tick_resolution e0 = w.pos ∧
    w.delta_ticks e0.timer.due = tw_T w.start w.tick_resolution e0 - w.pos ∧
    w.delta_ticks e0.timer.due < 256 ^ e0.level := by
  have hl0 : ¬ e0.level = 0 := by omega
  unfold tw_entry_inv at hinv0
  rw [if_neg hl0] at hinv0
  obtain ⟨_, _, hslotT, hlo, hhi, hBmin⟩ := hinv0
  have hmpos : 0 < (256 : Nat) ^ e0.level := Nat.pos_pow_of_pos _ (by norm_num)
  have hBd : 256 ^ e0.level ∣ tw_bB w.start w.tick_resolution e0 :=
    ⟨tw_T w.start w.tick_resolution e0 / 256 ^ e0.level, Nat.mul_comm _ _⟩
  have hBdiv : tw_bB w.start w.tick_resolution e0 / 256 ^ e0.level
      = tw_T w.start w.tick_resolution e0 / 256 ^ e0.level := by
    unfold tw_bB
    exact Nat.mul_div_cancel _ hmpos
  have hmod : tw_bB w.start w.tick_resolution e0 / 256 ^ e0.level % 256
      = w.pos / 256 ^ e0.level % 256 := by
    rw [hBdiv, ← hslotT, hs]
  have hhi' : tw_bB w.start w.tick_resolution e0 < w.pos + 256 * 256 ^ e0.level := by
    have hpow : (256 : Nat) ^ (e0.level + 1) = 256 ^ e0.level * 256 := pow_succ 256 e0.level
    omega
  have hBp : tw_bB w.start w.tick_resolution e0 = w.pos :=
    tw_window_boundary_eq w.pos (tw_bB w.start w.tick_resolution e0) (256 ^ e0.level)
      hmpos hBd hpdvd hmod hlo hhi'
  have hTB : tw_bB w.start w.tick_resolution e0 ≤ tw_T w.start w.tick_resolution e0 :=
    Nat.div_mul_le_self _ _
  have hpT : w.pos ≤ tw_T w.start w.tick_resolution e0 := hBp ▸ hTB
  have hrec := tw_recompute w e0 hres hpT
  obtain ⟨hbm1, hbm2⟩ := tw_bB_mod w.start w.tick_resolution e0
  refine ⟨hBp, hrec, ?_⟩
  rw [hrec]
  omega

lemma tw_replaced_core (w : ph_timerwheel) (e0 : tw_entry)
    (hres : 0 < w.tick_resolution)
    (hinv0 : tw_entry_inv w.start w.tick_resolution w.pos e0)
    (hstage :
      (e0.level = 1 ∧ e0.slot = w.pos / 256 % 256) ∨
      (w.pos / 256 % 256 = 0 ∧ e0.level = 2 ∧ e0.slot = w.pos / 256 ^ 2 % 256) ∨
      (w.pos / 256 % 256 = 0 ∧ w.pos / 256 ^ 2 % 256 = 0 ∧ e0.level = 3 ∧
        e0.slot = w.pos / 256 ^ 3 % 256))
    (hb1 : w.pos % 256 = 0) :
    tw_bB w.start w.tick_resolution e0 = w.pos ∧
    w.delta_ticks e0.timer.due = tw_T w.start w.tick_resolution e0 - w.pos ∧
    w.delta_ticks e0.timer.due < 256 ^ e0.level := by
  have h256 : (256 : Nat) ∣ w.pos := Nat.dvd_of_mod_eq_zero hb1
  rcases hstage with ⟨hl, hs⟩ | ⟨hc, hl, hs⟩ | ⟨hc, hc2, hl, hs⟩
  · refine tw_replaced_core_aux w e0 hres hinv0 (by omega) ?_ ?_
    · rw [hl, pow_one]; exact h256
    · rw [hl, pow_one]; exact hs
  · have h2 : (256 : Nat) ^ 2 ∣ w.pos := by
      have hd := (tw_div_mod_zero w.pos 256 (by norm_num) h256).1 hc
      have he : (256 : Nat) ^ 2 = 256 * 256 := by norm_num
      rw [he]; exact hd
    refine tw_replaced_core_aux w e0 hres hinv0 (by omega) ?_ ?_
    · rw [hl]; exact h2
    · rw [hl]; exact hs
  · have h2 : (256 : Nat) ^ 2 ∣ w.pos := by
      have hd := (tw_div_mod_zero w.pos 256 (by norm_num) h256).1 hc
      have he : (256 : Nat) ^ 2 = 256 * 256 := by norm_num
      rw [he]; exact hd
    have h3 : (256 : Nat) ^ 3 ∣ w.pos := by
      have hd := (tw_div_mod_zero w.pos (256 ^ 2) (by norm_num) h2).1 hc2
      have he : (256 : Nat) ^ 3 = 256 ^ 2 * 256 := by norm_num
      rw [he]; exact hd
    refine tw_replaced_core_aux w e0 hres hinv0 (by omega) ?_ ?_
    · rw [hl]; exact h3
    · rw [hl]; exact hs

lemma tw_survivor_bB_ne (start res : Nat) (w : ph_timerwheel) (e' : tw_entry)
    (h1 : w.pos % 256 = 0 → 0 < w.pos → ¬(e'.level = 1 ∧ e'.slot = w.pos / 256 % 256))
    (h2 : w.pos % 256 = 0 → 0 < w.pos → w.pos / 256 % 256 = 0 →
        ¬(e'.level = 2 ∧ e'.slot = w.pos / 256 ^ 2 % 256))
    (h3 : w.pos % 256 = 0 → 0 < w.pos → w.pos / 256 % 256 = 0 → w.pos / 256 ^ 2 % 256 = 0 →
        ¬(e'.level = 3 ∧ e'.slot = w.pos / 256 ^ 3 % 256))
    (hl1 : 1 ≤ e'.level) (hl3 : e'.level ≤ 3)
    (hslotT : e'.slot = tw_T start res e' / 256 ^ e'.level % 256)
    (hBmin : 256 ^ e'.level ≤ tw_bB start res e') :
    tw_bB start res e' ≠ w.pos := by
  intro hBp
  have hmpos : 0 < (256 : Nat) ^ e'.level := Nat.pos_pow_of_pos _ (by norm_num)
  have hBd : 256 ^ e'.level ∣ tw_bB start res e' :=
    ⟨tw_T start res e' / 256 ^ e'.level, Nat.mul_comm _ _⟩
  have hpdvd : 256 ^ e'.level ∣ w.pos := hBp ▸ hBd
  have hslotp : e'.slot = w.pos / 256 ^ e'.level % 256 := by
    rw [hslotT, ← hBp]
    unfold tw_bB
    rw [Nat.mul_div_cancel _ hmpos]
  have h256d : (256 : Nat) ∣ w.pos := by
    have hdp : (256 : Nat) ∣ 256 ^ e'.level := dvd_pow_self 256 (by omega)
    exact dvd_trans hdp hpdvd
  have hp256 : w.pos % 256 = 0 := by omega
  have hppos : 0 < w.pos := by omega
  rcases (by omega : e'.level = 1 ∨ e'.level = 2 ∨ e'.level = 3) with hv | hv | hv
  · refine h1 hp256 hppos ⟨hv, ?_⟩
    rw [hv, pow_one] at hslotp
    exact hslotp
  · have hd2 : (256 : Nat) ^ 2 ∣ w.pos := by rw [← hv]; exact hpdvd
    have hc : w.pos / 256 % 256 = 0 := by
      apply (tw_div_mod_zero w.pos 256 (by norm_num) h256d).2
      have he : (256 : Nat) * 256 = 256 ^ 2 := by norm_num
      rw [he]; exact hd2
    refine h2 hp256 hppos hc ⟨hv, ?_⟩
    rw [hv] at hslotp
    exact hslotp
  · have hd3 : (256 : Nat) ^ 3 ∣ w.pos := by rw [← hv]; exact hpdvd
    have hd2 : (256 : Nat) ^ 2 ∣ w.pos :=
      dvd_trans (pow_dvd_pow 256 (by norm_num)) hd3
    have hc : w.pos / 256 % 256 = 0 := by
      apply (tw_div_mod_zero w.pos 256 (by norm_num) h256d).2
      have he : (256 : Nat) * 256 = 256 ^ 2 := by norm_num
      rw [he]; exact hd2
    have hc2 : w.pos / 256 ^ 2 % 256 = 0 := by
      apply (tw_div_mod_zero w.pos (256 ^ 2) (by norm_num) hd2).2
      have he : (256 : Nat) ^ 2 * 256 = 256 ^ 3 := by norm_num
      rw [he]; exact hd3
    refine h3 hp256 hppos hc hc2 ⟨hv, ?_⟩
    rw [hv] at hslotp
    exact hslotp

lemma tw_tick_step_entry_inv (w : ph_timerwheel) (now : Nat)
    (hres : 0 < w.tick_resolution)
    (e' : tw_entry) (he' : e' ∈ (tw_tick_step w now).1.entries)
    (hinv : ∀ e ∈ w.entries, e.timer.id = e'.timer.id →
        tw_entry_inv w.start w.tick_resolution w.pos e) :
    tw_entry_inv_s w.start w.tick_resolution (w.pos + 1) e' := by
  obtain ⟨hen, _⟩ := tw_tick_step_entries w now
  rw [hen] at he'
  have hmem := List.mem_filter.1 he'
  have hcasc : e' ∈ (tw_do_cascades w).entries := hmem.1
  have hno : ¬(e'.level = 0 ∧ e'.slot = w.pos % 256) := by
    intro hc
    have hb : (e'.level == 0 && e'.slot == w.pos % PHENOM_WHEEL_SIZE) = true := by
      simp [hc.1, hc.2]
    have hcontra := hmem.2
    rw [hb] at hcontra
    simp at hcontra
  rcases tw_do_cascades_mem w e' hcasc with ⟨hw, h1, h2, h3⟩ | ⟨hb1, hb2, e0, he0, heq, hstage⟩
  · -- the entry survived in place
    have hinv' := hinv e' hw rfl
    by_cases hl : e'.level = 0
    · unfold tw_entry_inv at hinv'
      rw [if_pos hl] at hinv'
      obtain ⟨T, hslot, hloT, hhiT, hdue, hdisj⟩ := hinv'
      have hTp : T ≠ w.pos := by
        intro hT
        exact hno ⟨hl, by rw [hslot, hT]⟩
      unfold tw_entry_inv_s
      rw [if_pos hl]
      refine ⟨T, hslot, by omega, by omega, hdue, ?_⟩
      rcases hdisj with h | h
      · exact h
      · exact absurd h hTp
    · unfold tw_entry_inv at hinv'
      rw [if_neg hl] at hinv'
      obtain ⟨hl1, hl3, hslotT, hlo, hhi, hBmin⟩ := hinv'
      have hBne : tw_bB w.start w.tick_resolution e' ≠ w.pos :=
        tw_survivor_bB_ne w.start w.tick_resolution w e' h1 h2 h3 hl1 hl3 hslotT hBmin
      unfold tw_entry_inv_s
      rw [if_neg hl]
      exact ⟨hl1, hl3, hslotT, by omega, by omega, hBmin⟩
  · -- the entry was drained by the cascade and re-routed at the boundary
    rw [heq] at hno ⊢
    have hid : e0.timer.id = e'.timer.id := by rw [heq]; rfl
    have hinv0 := hinv e0 he0 hid
    have hcore := tw_replaced_core w e0 hres hinv0 hstage hb1
    have hd32 : w.delta_ticks e0.timer.due < 256 ^ 4 := by
      have h3 : e0.level ≤ 3 := by
        rcases hstage with ⟨hl, _⟩ | ⟨_, hl, _⟩ | ⟨_, _, hl, _⟩ <;> omega
      have hle : (256 : Nat) ^ e0.level ≤ 256 ^ 3 :=
        Nat.pow_le_pow_right (by norm_num) h3
      have h4 : (256 : Nat) ^ 3 < 256 ^ 4 := by norm_num
      omega
    obtain ⟨hpinv, hpstrict⟩ := tw_place_inv w e0.timer hres hd32
    by_cases hl : (tw_entry_for w e0.timer).level = 0
    · unfold tw_entry_inv at hpinv
      rw [if_pos hl] at hpinv
      obtain ⟨T, hslot, hloT, hhiT, hdue, hdisj⟩ := hpinv
      have hTp : T ≠ w.pos := by
        intro hT
        exact hno ⟨hl, by rw [hslot, hT]⟩
      unfold tw_entry_inv_s
      rw [if_pos hl]
      refine ⟨T, hslot, by omega, by omega, hdue, ?_⟩
      rcases hdisj with h | h
      · exact h
      · exact absurd h hTp
    · unfold tw_entry_inv at hpinv
      rw [if_neg hl] at hpinv
      obtain ⟨hl1, hl3, hslotT, hlo, hhi, hBmin⟩ := hpinv
      have hstrict := hpstrict hl1
      unfold tw_entry_inv_s
      rw [if_neg hl]
      exact ⟨hl1, hl3, hslotT, by omega, by omega, hBmin⟩

lemma tw_countP_map_id (l : List tw_entry) (now i : Nat) :
    (l.map (fun e => ({ e.timer with active := false }, now))).countP
        (fun pr : ph_timerwheel_timer × Nat => pr.1.id == i)
      = l.countP (fun e => e.timer.id == i) := by
  induction l with
  | nil => rfl
  | cons e l ih => simp [List.countP_cons, ih]

lemma tw_tick_step_counts (w : ph_timerwheel) (now : Nat) (i : Nat) :
    tw_count_id (tw_tick_step w now).1.entries i
      + tw_trace_count (tw_tick_step w now).2 i
      = tw_count_id w.entries i := by
  obtain ⟨h1, h2⟩ := tw_tick_step_entries w now
  rw [h1, h2]
  unfold tw_count_id tw_trace_count
  rw [tw_countP_map_id]
  have hsplit := tw_countP_filter_split' (tw_do_cascades w).entries
    (fun e => e.timer.id == i)
    (fun e => e.level == 0 && e.slot == w.pos % PHENOM_WHEEL_SIZE)
    (fun e => !(e.level == 0 && e.slot == w.pos % PHENOM_WHEEL_SIZE))
    (fun a => rfl)
  have hc := tw_do_cascades_countP w i
  unfold tw_count_id at hc
  omega

lemma tw_tick_step_fired (w : ph_timerwheel) (now : Nat)
    (hres : 0 < w.tick_resolution)
    (pr : ph_timerwheel_timer × Nat) (hpr : pr ∈ (tw_tick_step w now).2)
    (hinv : ∀ e ∈ w.entries, e.timer.id = pr.1.id →
        tw_entry_inv w.start w.tick_resolution w.pos e) :
    pr.2 = now ∧ pr.1.due < w.start + (w.pos + 1) * w.tick_resolution := by
  obtain ⟨_, h2⟩ := tw_tick_step_entries w now
  rw [h2] at hpr
  obtain ⟨e, he, heq⟩ := List.mem_map.1 hpr
  have hef := List.mem_filter.1 he
  have hcasc := hef.1
  have hmatch : e.level = 0 ∧ e.slot = w.pos % 256 := by
    have hb := hef.2
    simp only [Bool.and_eq_true, beq_iff_eq, tw_SIZE_eq] at hb
    exact hb
  have hid : e.timer.id = pr.1.id := by rw [← heq]
  have hnow : pr.2 = now := by rw [← heq]
  have hdue : pr.1.due = e.timer.due := by rw [← heq]

  refine ⟨hnow, ?_⟩
  rw [hdue]
  rcases tw_do_cascades_mem w e hcasc with ⟨hw, _, _, _⟩ | ⟨hb1, hb2, e0, he0, heqe, hstage⟩
  · have hinv' := hinv e hw hid
    unfold tw_entry_inv at hinv'
    rw [if_pos hmatch.1] at hinv'
    obtain ⟨T, hslot, hloT, hhiT, hdueb, _⟩ := hinv'
    have hTp : T = w.pos := by
      have hmm : T % 256 = w.pos % 256 := by rw [← hslot, hmatch.2]
      omega
    rw [hTp] at hdueb
    exact hdueb
  · have hide0 : e0.timer.id = pr.1.id := by
      rw [← hid, heqe]
      rfl
    have hinv0 := hinv e0 he0 hide0
    have hcore := tw_replaced_core w e0 hres hinv0 hstage hb1
    have hd32 : w.delta_ticks e0.timer.due < 256 ^ 4 := by
      have h3 : e0.level ≤ 3 := by
        rcases hstage with ⟨hl, _⟩ | ⟨_, hl, _⟩ | ⟨_, _, hl, _⟩ <;> omega
      have hle : (256 : Nat) ^ e0.level ≤ 256 ^ 3 :=
        Nat.pow_le_pow_right (by norm_num) h3
      have h4 : (256 : Nat) ^ 3 < 256 ^ 4 := by norm_num
      omega
    obtain ⟨hpinv, _⟩ := tw_place_inv w e0.timer hres hd32
    have hlev0 : (tw_entry_for w e0.timer).level = 0 := by rw [← heqe]; exact hmatch.1
    unfold tw_entry_inv at hpinv
    rw [if_pos hlev0] at hpinv
    obtain ⟨T, hslot, hloT, hhiT, hdueb, _⟩ := hpinv
    have hslotp : (tw_entry_for w e0.timer).slot = w.pos % 256 := by
      rw [← heqe]; exact hmatch.2
    have hTp : T = w.pos := by
      have hmm : T % 256 = w.pos % 256 := by rw [← hslot, hslotp]
      omega
    have hduee : e.timer.due = e0.timer.due := by rw [heqe]; rfl
    rw [hduee, ← hTp]
    exact hdueb

/-! ### Invariants through the tick loop -/

lemma tw_delta_le (w : ph_timerwheel) (due : Nat) :
    w.delta_ticks due ≤ (due - w.start) / w.tick_resolution := by
  unfold ph_timerwheel.delta_ticks
  apply Nat.div_le_div_right
  apply Nat.sub_le_sub_left
  exact Nat.le_add_right _ _

lemma tw_tick_step_timer_mem (w : ph_timerwheel) (now : Nat) (e' : tw_entry)
    (he' : e' ∈ (tw_tick_step w now).1.entries) :
    ∃ e, e ∈ w.entries ∧ e'.timer = e.timer := by
  obtain ⟨hen, _⟩ := tw_tick_step_entries w now
  rw [hen] at he'
  have hcasc : e' ∈ (tw_do_cascades w).entries := (List.mem_filter.1 he').1
  rcases tw_do_cascades_mem w e' hcasc with ⟨hw, _, _, _⟩ | ⟨_, _, e0, he0, heq, _⟩
  · exact ⟨e', hw, rfl⟩
  · exact ⟨e0, he0, by rw [heq]; rfl⟩

lemma tw_tick_loop_timer_mem (k : Nat) (w : ph_timerwheel) (now : Nat) (e' : tw_entry)
    (he' : e' ∈ (tw_tick_loop w now k).1.entries) :
    ∃ e, e ∈ w.entries ∧ e'.timer = e.timer := by
  induction k generalizing w with
  | zero => exact ⟨e', he', rfl⟩
  | succ k ih =>
    obtain ⟨e1, he1, heq1⟩ := ih (tw_tick_step w now).1 he'
    obtain ⟨e2, he2, heq2⟩ := tw_tick_step_timer_mem w now e1 he1
    exact ⟨e2, he2, by rw [heq1, heq2]⟩

lemma tw_tick_loop_counts (k : Nat) (w : ph_timerwheel) (now i : Nat) :
    tw_count_id (tw_tick_loop w now k).1.entries i
      + tw_trace_count (tw_tick_loop w now k).2.1 i
      = tw_count_id w.entries i := by
  induction k generalizing w with
  | zero => simp [tw_tick_loop, tw_trace_count]
  | succ k ih =>
    have hstep := tw_tick_step_counts w now i
    have hrec := ih (tw_tick_step w now).1
    show tw_count_id (tw_tick_loop (tw_tick_step w now).1 now k).1.entries i
        + tw_trace_count ((tw_tick_step w now).2 ++ (tw_tick_loop (tw_tick_step w now).1 now k).2.1) i
        = tw_count_id w.entries i
    unfold tw_trace_count at *
    rw [List.countP_append]
    omega

lemma tw_tick_loop_tracked (k : Nat) (w : ph_timerwheel) (now i : Nat)
    (hres : 0 < w.tick_resolution)
    (hinv : ∀ e ∈ w.entries, e.timer.id = i →
        tw_entry_inv w.start w.tick_resolution w.pos e) :
    (∀ e' ∈ (tw_tick_loop w now k).1.entries, e'.timer.id = i →
        tw_entry_inv w.start w.tick_resolution (w.pos + k) e') ∧
    (1 ≤ k → ∀ e' ∈ (tw_tick_loop w now k).1.entries, e'.timer.id = i →
        tw_entry_inv_s w.start w.tick_resolution (w.pos + k) e') := by
  induction k generalizing w with
  | zero =>
    refine ⟨fun e' he' hid => by simpa using hinv e' he' hid, fun h => absurd h (by omega)⟩
  | succ k ih =>
    have hstep : ∀ e' ∈ (tw_tick_step w now).1.entries, e'.timer.id = i →
        tw_entry_inv_s w.start w.tick_resolution (w.pos + 1) e' := by
      intro e' he' hid
      apply tw_tick_step_entry_inv w now hres e' he'
      intro e he hide
      exact hinv e he (by rw [hide, hid])
    have hs1 : (tw_tick_step w now).1.start = w.start := tw_tick_step_start w now
    have hs2 : (tw_tick_step w now).1.tick_resolution = w.tick_resolution :=
      tw_tick_step_res w now
    have hs3 : (tw_tick_step w now).1.pos = w.pos + 1 := tw_tick_step_pos w now
    have hinv1 : ∀ e ∈ (tw_tick_step w now).1.entries, e.timer.id = i →
        tw_entry_inv (tw_tick_step w now).1.start (tw_tick_step w now).1.tick_resolution
          (tw_tick_step w now).1.pos e := by
      intro e he hid
      rw [hs1, hs2, hs3]
      exact tw_entry_inv_of_s _ _ _ _ (hstep e he hid)
    have hres1 : 0 < (tw_tick_step w now).1.tick_resolution := by rw [hs2]; exact hres
    have ihh := ih (tw_tick_step w now).1 hres1 hinv1
    rw [hs1, hs2, hs3] at ihh
    by_cases hk : 1 ≤ k
    · constructor
      · intro e' he' hid
        have := ihh.1 e' he' hid
        simpa [Nat.add_assoc, Nat.add_comm 1 k] using this
      · intro _ e' he' hid
        have := ihh.2 hk e' he' hid
        simpa [Nat.add_assoc, Nat.add_comm 1 k] using this
    · have hk0 : k = 0 := by omega
      subst hk0
      constructor
      · intro e' he' hid
        have := ihh.1 e' he' hid
        simpa using this
      · intro _ e' he' hid
        have hmem : e' ∈ (tw_tick_step w now).1.entries := by
          simpa [tw_tick_loop] using he'
        have := hstep e' hmem hid
        simpa using this

lemma tw_tick_loop_all (k : Nat) (w : ph_timerwheel) (now : Nat)
    (hres : 0 < w.tick_resolution)
    (hinv : ∀ e ∈ w.entries, tw_entry_inv w.start w.tick_resolution w.pos e)
    (hk : ∀ j, j < k → w.next_run + j * w.tick_resolution ≤ now) :
    (∀ e ∈ (tw_tick_loop w now k).1.entries,
        tw_entry_inv w.start w.tick_resolution (w.pos + k) e) ∧
    (∀ pr ∈ (tw_tick_loop w now k).2.1, pr.1.due < now + w.tick_resolution) := by
  induction k generalizing w with
  | zero =>
    refine ⟨fun e he => by simpa using hinv e he, fun pr hpr => absurd hpr (by simp [tw_tick_loop])⟩
  | succ k ih =>
    have hstep : ∀ e' ∈ (tw_tick_step w now).1.entries,
        tw_entry_inv_s w.start w.tick_resolution (w.pos + 1) e' := by
      intro e' he'
      apply tw_tick_step_entry_inv w now hres e' he'
      intro e he _
      exact hinv e he
    have hs1 : (tw_tick_step w now).1.start = w.start := tw_tick_step_start w now
    have hs2 : (tw_tick_step w now).1.tick_resolution = w.tick_resolution :=
      tw_tick_step_res w now
    have hs3 : (tw_tick_step w now).1.pos = w.pos + 1 := tw_tick_step_pos w now
    have hinv1 : ∀ e ∈ (tw_tick_step w now).1.entries,
        tw_entry_inv (tw_tick_step w now).1.start (tw_tick_step w now).1.tick_resolution
          (tw_tick_step w now).1.pos e := by
      intro e he
      rw [hs1, hs2, hs3]
      exact tw_entry_inv_of_s _ _ _ _ (hstep e he)
    have hres1 : 0 < (tw_tick_step w now).1.tick_resolution := by rw [hs2]; exact hres
    have hk1 : ∀ j, j < k →
        (tw_tick_step w now).1.next_run + j * (tw_tick_step w now).1.tick_resolution ≤ now := by
      intro j hj
      rw [tw_tick_step_next_run, hs2]
      have := hk (j + 1) (by omega)
      have hexp : w.next_run + (j + 1) * w.tick_resolution
          = w.next_run + w.tick_resolution + j * w.tick_resolution := by ring
      omega
    have ihh := ih (tw_tick_step w now).1 hres1 hinv1 hk1
    rw [hs1, hs2, hs3] at ihh
    constructor
    · intro e he
      have := ihh.1 e he
      simpa [Nat.add_assoc, Nat.add_comm 1 k] using this
    · intro pr hpr
      have hsplit : pr ∈ (tw_tick_step w now).2
          ∨ pr ∈ (tw_tick_loop (tw_tick_step w now).1 now k).2.1 := by
        have : pr ∈ (tw_tick_step w now).2
            ++ (tw_tick_loop (tw_tick_step w now).1 now k).2.1 := hpr
        exact List.mem_append.1 this
      rcases hsplit with h | h
      · have hfired := tw_tick_step_fired w now hres pr h
          (fun e he _ => hinv e he)
        have hnr : w.next_run ≤ now := by
          have := hk 0 (by omega)
          simpa using this
        have hnr' : w.next_run = w.start + w.pos * w.tick_resolution := rfl
        have hexp : (w.pos + 1) * w.tick_resolution
            = w.pos * w.tick_resolution + w.tick_resolution := by ring
        omega
      · exact ihh.2 pr h

/-! ### Invariants across caller operation sequences -/

lemma tw_tick_next_run_gt (w : ph_timerwheel) (now : Nat)
    (hres : 0 < w.tick_resolution) :
    now < (ph_timerwheel_tick w now).1.next_run := by
  unfold ph_timerwheel_tick
  by_cases h : w.next_run ≤ now
  · have hn : tw_nsteps w now = (now - w.next_run) / w.tick_resolution + 1 := by
      simp [tw_nsteps, h]
    rw [(tw_tick_loop_next_run _ _ _).1, hn, Nat.add_mul, one_mul]
    have h1 := Nat.div_add_mod (now - w.next_run) w.tick_resolution
    have h2 := Nat.mod_lt (now - w.next_run) hres
    rw [Nat.mul_comm] at h1
    generalize (now - w.next_run) / w.tick_resolution * w.tick_resolution = X at h1 ⊢
    omega
  · have hn : tw_nsteps w now = 0 := by
      simp [tw_nsteps, h]
    rw [hn]
    show now < w.next_run
    omega

lemma tw_run_op_fields (s : ph_timerwheel × List (ph_timerwheel_timer × Nat))
    (op : wheel_op) :
    (tw_run_op s op).1.start = s.1.start ∧
    (tw_run_op s op).1.tick_resolution = s.1.tick_resolution := by
  cases op with
  | insert t =>
    by_cases h : t.active = true
    · simp [tw_run_op, ph_timerwheel_insert, h]
    · simp [tw_run_op, ph_timerwheel_insert, h]
  | remove j => exact ⟨rfl, rfl⟩
  | tick now =>
    unfold tw_run_op ph_timerwheel_tick
    exact ⟨(tw_tick_loop_next_run _ _ _).2.2.2, (tw_tick_loop_next_run _ _ _).2.1⟩

lemma tw_run_fold_fields (ops : List wheel_op)
    (s : ph_timerwheel × List (ph_timerwheel_timer × Nat)) :
    (ops.foldl tw_run_op s).1.start = s.1.start ∧
    (ops.foldl tw_run_op s).1.tick_resolution = s.1.tick_resolution := by
  induction ops generalizing s with
  | nil => exact ⟨rfl, rfl⟩
  | cons op ops ih =>
    have h1 := tw_run_op_fields s op
    have h2 := ih (tw_run_op s op)
    exact ⟨by rw [List.foldl_cons, h2.1, h1.1], by rw [List.foldl_cons, h2.2, h1.2]⟩

lemma tw_run_op_absent (s : ph_timerwheel × List (ph_timerwheel_timer × Nat))
    (op : wheel_op) (i : Nat)
    (hop : ∀ t', op = wheel_op.insert t' → t'.id ≠ i)
    (hc : tw_count_id s.1.entries i = 0) (ht : tw_trace_count s.2 i = 0) :
    tw_count_id (tw_run_op s op).1.entries i = 0 ∧
    tw_trace_count (tw_run_op s op).2 i = 0 := by
  cases op with
  | insert t =>
    have hid : t.id ≠ i := hop t rfl
    show tw_count_id ((ph_timerwheel_insert s.1 t).1, s.2).1.entries i = 0 ∧
      tw_trace_count ((ph_timerwheel_insert s.1 t).1, s.2).2 i = 0
    by_cases ha : t.active = true
    · rw [show (ph_timerwheel_insert s.1 t).1 = s.1 by
        simp [ph_timerwheel_insert, ha]]
      exact ⟨hc, ht⟩
    · rw [show (ph_timerwheel_insert s.1 t).1 = tw_place s.1
          { t with active := true, wheel_gen := t.generation } by
        simp [ph_timerwheel_insert, ha]]
      refine ⟨?_, ht⟩
      show tw_count_id (tw_place s.1
        { t with active := true, wheel_gen := t.generation }).entries i = 0
      rw [tw_place_entries]
      unfold tw_count_id at *
      rw [List.countP_cons]
      have hfalse : ((tw_entry_for s.1
          { t with active := true, wheel_gen := t.generation }).timer.id == i) = false := by
        show (t.id == i) = false
        exact beq_eq_false_iff_ne.2 hid
      rw [hfalse]
      simpa using hc
  | remove j =>
    refine ⟨?_, ht⟩
    show tw_count_id (s.1.entries.filter (fun e => e.timer.id != j)) i = 0
    unfold tw_count_id at *
    have hle := (List.filter_sublist (l := s.1.entries)
      (p := fun e => e.timer.id != j)).countP_le (fun e => e.timer.id == i)
    omega
  | tick now =>
    have hcounts := tw_tick_loop_counts (tw_nsteps s.1 now) s.1 now i
    constructor
    · show tw_count_id (tw_tick_loop s.1 now (tw_nsteps s.1 now)).1.entries i = 0
      omega
    · show tw_trace_count (s.2 ++ (tw_tick_loop s.1 now (tw_nsteps s.1 now)).2.1) i = 0
      unfold tw_trace_count at *
      rw [List.countP_append]
      omega

lemma tw_run_fold_absent (ops : List wheel_op)
    (s : ph_timerwheel × List (ph_timerwheel_timer × Nat)) (i : Nat)
    (hops : ∀ op ∈ ops, ∀ t', op = wheel_op.insert t' → t'.id ≠ i)
    (hc : tw_count_id s.1.entries i = 0) (ht : tw_trace_count s.2 i = 0) :
    tw_count_id (ops.foldl tw_run_op s).1.entries i = 0 ∧
    tw_trace_count (ops.foldl tw_run_op s).2 i = 0 := by
  induction ops generalizing s with
  | nil => exact ⟨hc, ht⟩
  | cons op ops ih =>
    have h1 := tw_run_op_absent s op i (hops op (by simp)) hc ht
    exact ih (tw_run_op s op) (fun op' hop' => hops op' (by simp [hop'])) h1.1 h1.2

/-- Bookkeeping for one tracked timer identity `i` with due time `D`
across a run: it is armed-or-dispatched exactly once, its linked entry
(if any) satisfies the placement invariant, and that entry still
carries due time `D`. -/
def tw_tracked_ok (start res i D : Nat)
    (s : ph_timerwheel × List (ph_timerwheel_timer × Nat)) : Prop :=
  tw_count_id s.1.entries i + tw_trace_count s.2 i = 1 ∧
  (∀ e ∈ s.1.entries, e.timer.id = i → tw_entry_inv start res s.1.pos e) ∧
  (∀ e ∈ s.1.entries, e.timer.id = i → e.timer.due = D)

lemma tw_run_op_tracked (start res i D : Nat)
    (s : ph_timerwheel × List (ph_timerwheel_timer × Nat)) (op : wheel_op)
    (hres : 0 < res)
    (hf : s.1.start = start ∧ s.1.tick_resolution = res)
    (hok : tw_tracked_ok start res i D s)
    (hop_i : ∀ t', op = wheel_op.insert t' → t'.id ≠ i)
    (hop_r : op ≠ wheel_op.remove i) :
    tw_tracked_ok start res i D (tw_run_op s op) := by
  obtain ⟨hcnt, hinv, hdue⟩ := hok
  cases op with
  | insert t =>
    have hid : t.id ≠ i := hop_i t rfl
    show tw_tracked_ok start res i D ((ph_timerwheel_insert s.1 t).1, s.2)
    by_cases ha : t.active = true
    · rw [show (ph_timerwheel_insert s.1 t).1 = s.1 by
        simp [ph_timerwheel_insert, ha]]
      exact ⟨hcnt, hinv, hdue⟩
    · rw [show (ph_timerwheel_insert s.1 t).1 = tw_place s.1
          { t with active := true, wheel_gen := t.generation } by
        simp [ph_timerwheel_insert, ha]]
      have hent : (tw_place s.1 { t with active := true, wheel_gen := t.generation }).entries
          = tw_entry_for s.1 { t with active := true, wheel_gen := t.generation }
            :: s.1.entries := tw_place_entries _ _
      have hidf : (tw_entry_for s.1
          { t with active := true, wheel_gen := t.generation }).timer.id ≠ i := hid
      refine ⟨?_, ?_, ?_⟩
      · show tw_count_id (tw_place s.1 _).entries i + tw_trace_count s.2 i = 1
        rw [hent]
        unfold tw_count_id at *
        rw [List.countP_cons]
        have hfalse : ((tw_entry_for s.1
            { t with active := true, wheel_gen := t.generation }).timer.id == i) = false :=
          beq_eq_false_iff_ne.2 hidf
        rw [hfalse]
        simpa using hcnt
      · intro e he hide
        rw [hent] at he
        rcases List.mem_cons.1 he with h | h
        · exact absurd (h ▸ hide) hidf
        · exact hinv e h hide
      · intro e he hide
        rw [hent] at he
        rcases List.mem_cons.1 he with h | h
        · exact absurd (h ▸ hide) hidf
        · exact hdue e h hide
  | remove j =>
    have hji : j ≠ i := fun h => hop_r (by rw [h])
    refine ⟨?_, ?_, ?_⟩
    · show tw_count_id (s.1.entries.filter (fun e => e.timer.id != j)) i
          + tw_trace_count s.2 i = 1
      unfold tw_count_id at *
      rw [List.countP_filter]
      have hcong : ∀ a ∈ s.1.entries,
          ((a.timer.id == i) && (a.timer.id != j)) = true ↔ (a.timer.id == i) = true := by
        intro a _
        constructor
        · intro h
          exact (Bool.and_eq_true_iff.1 h).1
        · intro h
          have : a.timer.id = i := by simpa using h
          have hnej : (a.timer.id != j) = true := by
            simp [this]
            omega
          simp [h, hnej]
      rw [List.countP_congr hcong]
      exact hcnt
    · intro e he hide
      have := (List.mem_filter.1 he).1
      exact hinv e this hide
    · intro e he hide
      have := (List.mem_filter.1 he).1
      exact hdue e this hide
  | tick now =>
    have hres1 : 0 < s.1.tick_resolution := by rw [hf.2]; exact hres
    have hinv' : ∀ e ∈ s.1.entries, e.timer.id = i →
        tw_entry_inv s.1.start s.1.tick_resolution s.1.pos e := by
      intro e he hide
      rw [hf.1, hf.2]
      exact hinv e he hide
    have hloop := tw_tick_loop_tracked (tw_nsteps s.1 now) s.1 now i hres1 hinv'
    have hcounts := tw_tick_loop_counts (tw_nsteps s.1 now) s.1 now i
    have hpos := (tw_tick_loop_next_run (tw_nsteps s.1 now) s.1 now).2.2.1
    refine ⟨?_, ?_, ?_⟩
    · show tw_count_id (tw_tick_loop s.1 now (tw_nsteps s.1 now)).1.entries i
          + tw_trace_count (s.2 ++ (tw_tick_loop s.1 now (tw_nsteps s.1 now)).2.1) i = 1
      unfold tw_trace_count at *
      rw [List.countP_append]
      omega
    · intro e he hide
      show tw_entry_inv start res (tw_tick_loop s.1 now (tw_nsteps s.1 now)).1.pos e
      rw [hpos]
      have := hloop.1 e he hide
      rw [hf.1, hf.2] at this
      exact this
    · intro e he hide
      obtain ⟨e0, he0, heq0⟩ := tw_tick_loop_timer_mem (tw_nsteps s.1 now) s.1 now e he
      have hid0 : e0.timer.id = i := by rw [← heq0]; exact hide
      have := hdue e0 he0 hid0
      rw [heq0]
      exact this

lemma tw_run_fold_tracked (ops : List wheel_op) (start res i D : Nat)
    (s : ph_timerwheel × List (ph_timerwheel_timer × Nat))
    (hres : 0 < res)
    (hf : s.1.start = start ∧ s.1.tick_resolution = res)
    (hok : tw_tracked_ok start res i D s)
    (hops_i : ∀ op ∈ ops, ∀ t', op = wheel_op.insert t' → t'.id ≠ i)
    (hops_r : ∀ op ∈ ops, op ≠ wheel_op.remove i) :
    tw_tracked_ok start res i D (ops.foldl tw_run_op s) := by
  induction ops generalizing s with
  | nil => exact hok
  | cons op ops ih =>
    have h1 := tw_run_op_tracked start res i D s op hres hf hok
      (hops_i op (by simp)) (hops_r op (by simp))
    have hf1 : (tw_run_op s op).1.start = start ∧
        (tw_run_op s op).1.tick_resolution = res := by
      have := tw_run_op_fields s op
      exact ⟨by rw [this.1, hf.1], by rw [this.2, hf.2]⟩
    exact ih (tw_run_op s op) hf1 h1
      (fun op' hop' => hops_i op' (by simp [hop']))
      (fun op' hop' => hops_r op' (by simp [hop']))

/-! ### Global invariant across runs -/

/-- Caller-side validity of one operation: inserted timers must have a
tick delta expressible in 32 bits (spec section 4.1: callers must not
insert timers with `d ≥ 2^32`). -/
def tw_op_valid (start res : Nat) : wheel_op → Prop
  | wheel_op.insert t => (t.due - start) / res < 2 ^ 32
  | wheel_op.remove _ => True
  | wheel_op.tick _ => True

lemma tw_tick_step_now (w : ph_timerwheel) (now : Nat)
    (pr : ph_timerwheel_timer × Nat) (hpr : pr ∈ (tw_tick_step w now).2) :
    pr.2 = now := by
  rw [(tw_tick_step_entries w now).2] at hpr
  obtain ⟨e, _, heq⟩ := List.mem_map.1 hpr
  rw [← heq]

lemma tw_tick_loop_now (k : Nat) (w : ph_timerwheel) (now : Nat)
    (pr : ph_timerwheel_timer × Nat) (hpr : pr ∈ (tw_tick_loop w now k).2.1) :
    pr.2 = now := by
  induction k generalizing w with
  | zero => exact absurd hpr (by simp [tw_tick_loop])
  | succ k ih =>
    have hpr' : pr ∈ (tw_tick_step w now).2
        ++ (tw_tick_loop (tw_tick_step w now).1 now k).2.1 := hpr
    rcases List.mem_append.1 hpr' with h | h
    · exact tw_tick_step_now w now pr h
    · exact ih (tw_tick_step w now).1 h

lemma tw_run_op_all (start res : Nat)
    (s : ph_timerwheel × List (ph_timerwheel_timer × Nat)) (op : wheel_op)
    (hres : 0 < res)
    (hf : s.1.start = start ∧ s.1.tick_resolution = res)
    (hinv : ∀ e ∈ s.1.entries, tw_entry_inv start res s.1.pos e)
    (htr : ∀ pr ∈ s.2, pr.1.due < pr.2 + res)
    (hop : tw_op_valid start res op) :
    (∀ e ∈ (tw_run_op s op).1.entries,
        tw_entry_inv start res (tw_run_op s op).1.pos e) ∧
    (∀ pr ∈ (tw_run_op s op).2, pr.1.due < pr.2 + res) := by
  cases op with
  | insert t =>
    by_cases ha : t.active = true
    · have heq : tw_run_op s (wheel_op.insert t) = (s.1, s.2) := by
        show ((ph_timerwheel_insert s.1 t).1, s.2) = _
        rw [show (ph_timerwheel_insert s.1 t).1 = s.1 by
          simp [ph_timerwheel_insert, ha]]
      rw [heq]
      exact ⟨hinv, htr⟩
    · have heq : tw_run_op s (wheel_op.insert t)
          = (tw_place s.1 { t with active := true, wheel_gen := t.generation }, s.2) := by
        show ((ph_timerwheel_insert s.1 t).1, s.2) = _
        rw [show (ph_timerwheel_insert s.1 t).1
            = tw_place s.1 { t with active := true, wheel_gen := t.generation } by
          simp [ph_timerwheel_insert, ha]]
      rw [heq]
      refine ⟨?_, htr⟩
      intro e he
      show tw_entry_inv start res
        (tw_place s.1 { t with active := true, wheel_gen := t.generation }).pos e
      rw [tw_place_pos]
      rw [tw_place_entries] at he
      rcases List.mem_cons.1 he with h | h
      · rw [h]
        have hres1 : 0 < s.1.tick_resolution := by rw [hf.2]; exact hres
        have hd32' : s.1.delta_ticks
            ({ t with active := true, wheel_gen := t.generation } :
              ph_timerwheel_timer).due < 256 ^ 4 := by
          show s.1.delta_ticks t.due < 256 ^ 4
          have h1 := tw_delta_le s.1 t.due
          rw [hf.1, hf.2] at h1
          have hv : (t.due - start) / res < 2 ^ 32 := hop
          have h3 : (2 : Nat) ^ 32 = 256 ^ 4 := by norm_num
          omega
        have hp := (tw_place_inv s.1 _ hres1 hd32').1
        rw [hf.1, hf.2] at hp
        exact hp
      · exact hinv e h
  | remove j =>
    refine ⟨?_, htr⟩
    intro e he
    have he' : e ∈ s.1.entries.filter (fun e => e.timer.id != j) := he
    exact hinv e (List.mem_filter.1 he').1
  | tick now =>
    have hres1 : 0 < s.1.tick_resolution := by rw [hf.2]; exact hres
    have hinv' : ∀ e ∈ s.1.entries,
        tw_entry_inv s.1.start s.1.tick_resolution s.1.pos e := by
      intro e he
      rw [hf.1, hf.2]
      exact hinv e he
    have hk : ∀ j, j < tw_nsteps s.1 now →
        s.1.next_run + j * s.1.tick_resolution ≤ now := by
      intro j hj
      unfold tw_nsteps at hj
      by_cases h : s.1.next_run ≤ now
      · rw [if_pos h] at hj
        have hjq : j ≤ (now - s.1.next_run) / s.1.tick_resolution := by omega
        have h1 : j * s.1.tick_resolution
            ≤ (now - s.1.next_run) / s.1.tick_resolution * s.1.tick_resolution :=
          Nat.mul_le_mul_right _ hjq
        have h2 : (now - s.1.next_run) / s.1.tick_resolution * s.1.tick_resolution
            ≤ now - s.1.next_run := Nat.div_mul_le_self _ _
        omega
      · rw [if_neg h] at hj
        omega
    have hall := tw_tick_loop_all (tw_nsteps s.1 now) s.1 now hres1 hinv' hk
    constructor
    · intro e he
      show tw_entry_inv start res
        (tw_tick_loop s.1 now (tw_nsteps s.1 now)).1.pos e
      rw [(tw_tick_loop_next_run _ _ _).2.2.1]
      have h := hall.1 e he
      rw [hf.1, hf.2] at h
      exact h
    · intro pr hpr
      have hpr' : pr ∈ s.2 ++ (tw_tick_loop s.1 now (tw_nsteps s.1 now)).2.1 := hpr
      rcases List.mem_append.1 hpr' with h | h
      · exact htr pr h
      · have hb := hall.2 pr h
        have hn := tw_tick_loop_now (tw_nsteps s.1 now) s.1 now pr h
        rw [hf.2] at hb
        omega

lemma tw_run_fold_all (ops : List wheel_op) (start res : Nat)
    (s : ph_timerwheel × List (ph_timerwheel_timer × Nat))
    (hres : 0 < res)
    (hf : s.1.start = start ∧ s.1.tick_resolution = res)
    (hinv : ∀ e ∈ s.1.entries, tw_entry_inv start res s.1.pos e)
    (htr : ∀ pr ∈ s.2, pr.1.due < pr.2 + res)
    (hval : ∀ op ∈ ops, tw_op_valid start res op) :
    (∀ e ∈ (ops.foldl tw_run_op s).1.entries,
        tw_entry_inv start res (ops.foldl tw_run_op s).1.pos e) ∧
    (∀ pr ∈ (ops.foldl tw_run_op s).2, pr.1.due < pr.2 + res) := by
  induction ops generalizing s with
  | nil => exact ⟨hinv, htr⟩
  | cons op ops ih =>
    have h1 := tw_run_op_all start res s op hres hf hinv htr (hval op (by simp))
    have hf1 : (tw_run_op s op).1.start = start ∧
        (tw_run_op s op).1.tick_resolution = res := by
      have h := tw_run_op_fields s op
      exact ⟨by rw [h.1, hf.1], by rw [h.2, hf.2]⟩
    exact ih (tw_run_op s op) hf1 h1.1 h1.2 (fun op' hop' => hval op' (by simp [hop']))

/-! ### Claim C3: no loss -/

/-- C3: a timer armed once (with a tick delta expressible in 32 bits,
the router's precondition) and never removed is dispatched exactly
once by any surrounding sequence of operations whose final tick time
exceeds the timer's due time — however far `now` has run ahead of
`next_run` (cascades never lose it, and overdue catch-up visits every
slot).  The final hypothesis says the wheel has not already been
ticked past the final `now` (time is monotonic), i.e. `next_run ≤ now`
holds when the last tick runs. -/
theorem tw_C3 (start res nowf : Nat) (t : ph_timerwheel_timer)
    (pre post : List wheel_op)
    (hres : 0 < res)
    (hact : t.active = false)
    (hd32 : (t.due - start) / res < 2 ^ 32)
    (hdue : t.due < nowf)
    (hpre_i : ∀ op ∈ pre, ∀ t', op = wheel_op.insert t' → t'.id ≠ t.id)
    (hpost_i : ∀ op ∈ post, ∀ t', op = wheel_op.insert t' → t'.id ≠ t.id)
    (hpost_r : ∀ op ∈ post, op ≠ wheel_op.remove t.id)
    (hnext : (tw_run (ph_timerwheel_init start res)
        (pre ++ wheel_op.insert t :: post)).1.next_run ≤ nowf) :
    tw_trace_count
      (tw_run (ph_timerwheel_init start res)
        (pre ++ wheel_op.insert t :: post ++ [wheel_op.tick nowf])).2 t.id = 1 := by
  set w0 := ph_timerwheel_init start res with hw0
  set s1 := pre.foldl tw_run_op (w0, ([] : List (ph_timerwheel_timer × Nat))) with hs1
  have hf1 : s1.1.start = start ∧ s1.1.tick_resolution = res := by
    have h := tw_run_fold_fields pre (w0, [])
    rw [hs1]
    exact ⟨by rw [h.1]; rfl, by rw [h.2]; rfl⟩
  have habs : tw_count_id s1.1.entries t.id = 0 ∧ tw_trace_count s1.2 t.id = 0 := by
    rw [hs1]
    apply tw_run_fold_absent pre (w0, []) t.id hpre_i
    · rfl
    · rfl
  set t' : ph_timerwheel_timer :=
    { t with active := true, wheel_gen := t.generation } with ht'
  have hs2eq : tw_run_op s1 (wheel_op.insert t) = (tw_place s1.1 t', s1.2) := by
    show ((ph_timerwheel_insert s1.1 t).1, s1.2) = _
    rw [show (ph_timerwheel_insert s1.1 t).1 = tw_place s1.1 t' by
      simp [ph_timerwheel_insert, hact, ht']]
  have hres1 : 0 < s1.1.tick_resolution := by rw [hf1.2]; exact hres
  have hd32' : s1.1.delta_ticks t'.due < 256 ^ 4 := by
    show s1.1.delta_ticks t.due < 256 ^ 4
    have h1 : s1.1.delta_ticks t.due ≤ (t.due - s1.1.start) / s1.1.tick_resolution :=
      tw_delta_le s1.1 t.due
    rw [hf1.1, hf1.2] at h1
    have h3 : (2 : Nat) ^ 32 = 256 ^ 4 := by norm_num
    omega
  have hplace := tw_place_inv s1.1 t' hres1 hd32'
  have hnone : ∀ e ∈ s1.1.entries, e.timer.id ≠ t.id := by
    intro e he
    have h := habs.1
    unfold tw_count_id at h
    have h2 := List.countP_eq_zero.1 h e he
    simpa using h2
  have hok2 : tw_tracked_ok start res t.id t.due (tw_place s1.1 t', s1.2) := by
    refine ⟨?_, ?_, ?_⟩
    · show tw_count_id (tw_place s1.1 t').entries t.id + tw_trace_count s1.2 t.id = 1
      rw [tw_place_entries]
      unfold tw_count_id at habs ⊢
      rw [List.countP_cons]
      have htrue : ((tw_entry_for s1.1 t').timer.id == t.id) = true := by
        show (t.id == t.id) = true
        simp
      rw [htrue]
      simp only [if_pos]
      have h1 := habs.1
      have h2 := habs.2
      omega
    · intro e he hid
      show tw_entry_inv start res (tw_place s1.1 t').pos e
      rw [tw_place_pos]
      rw [tw_place_entries] at he
      rcases List.mem_cons.1 he with h | h
      · rw [h]
        have hp := hplace.1
        rw [hf1.1, hf1.2] at hp
        exact hp
      · exact absurd hid (hnone e h)
    · intro e he hid
      rw [tw_place_entries] at he
      rcases List.mem_cons.1 he with h | h
      · rw [h]
        rfl
      · exact absurd hid (hnone e h)
  set s3 := post.foldl tw_run_op (tw_place s1.1 t', s1.2) with hs3
  have hfplace : (tw_place s1.1 t', s1.2).1.start = start ∧
      (tw_place s1.1 t', s1.2).1.tick_resolution = res := by
    constructor
    · show (tw_place s1.1 t').start = start
      rw [tw_place_start, hf1.1]
    · show (tw_place s1.1 t').tick_resolution = res
      rw [tw_place_res, hf1.2]
  have hf3 : s3.1.start = start ∧ s3.1.tick_resolution = res := by
    have h := tw_run_fold_fields post (tw_place s1.1 t', s1.2)
    rw [hs3]
    exact ⟨by rw [h.1]; exact hfplace.1, by rw [h.2]; exact hfplace.2⟩
  have hok3 : tw_tracked_ok start res t.id t.due s3 := by
    rw [hs3]
    exact tw_run_fold_tracked post start res t.id t.due _ hres hfplace hok2
      hpost_i hpost_r
  have hs3run : tw_run w0 (pre ++ wheel_op.insert t :: post) = s3 := by
    unfold tw_run
    rw [List.foldl_append, List.foldl_cons, ← hs1, hs2eq, ← hs3]
  have hfinal : tw_run w0 (pre ++ wheel_op.insert t :: post ++ [wheel_op.tick nowf])
      = tw_run_op s3 (wheel_op.tick nowf) := by
    unfold tw_run
    rw [show pre ++ wheel_op.insert t :: post ++ [wheel_op.tick nowf]
        = (pre ++ wheel_op.insert t :: post) ++ [wheel_op.tick nowf] by simp]
    rw [List.foldl_append]
    have h : (pre ++ wheel_op.insert t :: post).foldl tw_run_op (w0, []) = s3 := hs3run
    rw [h]
    rfl
  rw [hfinal]
  rw [hs3run] at hnext
  show tw_trace_count
      (s3.2 ++ (tw_tick_loop s3.1 nowf (tw_nsteps s3.1 nowf)).2.1) t.id = 1
  set k := tw_nsteps s3.1 nowf with hk
  have hk1 : 1 ≤ k := by
    rw [hk]
    unfold tw_nsteps
    rw [if_pos hnext]
    exact Nat.le_add_left 1 _
  obtain ⟨hcnt3, hinv3, hdue3⟩ := hok3
  have hres3 : 0 < s3.1.tick_resolution := by rw [hf3.2]; exact hres
  have hinv3' : ∀ e ∈ s3.1.entries, e.timer.id = t.id →
      tw_entry_inv s3.1.start s3.1.tick_resolution s3.1.pos e := by
    intro e he hid
    rw [hf3.1, hf3.2]
    exact hinv3 e he hid
  have hloop := tw_tick_loop_tracked k s3.1 nowf t.id hres3 hinv3'
  have hgt : nowf < (ph_timerwheel_tick s3.1 nowf).1.next_run :=
    tw_tick_next_run_gt s3.1 nowf hres3
  have hnr : (ph_timerwheel_tick s3.1 nowf).1.next_run
      = start + (s3.1.pos + k) * res := by
    show (tw_tick_loop s3.1 nowf k).1.next_run = _
    have h1 := tw_tick_loop_next_run k s3.1 nowf
    have h2 : s3.1.next_run = start + s3.1.pos * res := by
      unfold ph_timerwheel.next_run
      rw [hf3.1, hf3.2]
    rw [h1.1, h2, hf3.2]
    ring
  have hcounts := tw_tick_loop_counts k s3.1 nowf t.id
  have hempty : tw_count_id (tw_tick_loop s3.1 nowf k).1.entries t.id = 0 := by
    unfold tw_count_id
    rw [List.countP_eq_zero]
    intro e' he'
    simp only [beq_iff_eq]
    intro hid
    have hs := hloop.2 hk1 e' he' hid
    rw [hf3.1, hf3.2] at hs
    obtain ⟨e0, he0, heq0⟩ := tw_tick_loop_timer_mem k s3.1 nowf e' he'
    have hdueE : e'.timer.due = t.due := by
      rw [heq0]
      exact hdue3 e0 he0 (by rw [← heq0]; exact hid)
    have hnowlt : nowf < start + (s3.1.pos + k) * res := by
      rw [← hnr]
      exact hgt
    unfold tw_entry_inv_s at hs
    by_cases hl : e'.level = 0
    · rw [if_pos hl] at hs
      obtain ⟨T, _, hloT, _, _, hlow⟩ := hs
      have hmul : (s3.1.pos + k) * res ≤ T * res :=
        Nat.mul_le_mul_right res hloT
      omega
    · rw [if_neg hl] at hs
      obtain ⟨hl1, hl3, hslotT, hlo, hhi, hBmin⟩ := hs
      have hTB : tw_bB start res e' ≤ tw_T start res e' := Nat.div_mul_le_self _ _
      have hTP : s3.1.pos + k ≤ tw_T start res e' := le_trans hlo hTB
      have hge : (s3.1.pos + k) * res ≤ e'.timer.due - start :=
        (Nat.le_div_iff_mul_le hres).1 hTP
      have hPr : 1 ≤ (s3.1.pos + k) * res := by
        have h1 : 1 * 1 ≤ (s3.1.pos + k) * res :=
          Nat.mul_le_mul (by omega) hres
        omega
      omega
  unfold tw_trace_count at *
  unfold tw_count_id at hcounts hcnt3 hempty
  rw [List.countP_append]
  omega

/-- C3 witness: the single-timer scenario — insert `due = 5` into a
fresh millisecond wheel, tick at 10: dispatched exactly once. -/
theorem tw_C3_witness :
    0 < 1 ∧ (⟨1, 5, false, 0, 0⟩ : ph_timerwheel_timer).active = false ∧
    ((5 : Nat) - 0) / 1 < 2 ^ 32 ∧ (5 : Nat) < 10 ∧
    (tw_run (ph_timerwheel_init 0 1)
      ([] ++ wheel_op.insert ⟨1, 5, false, 0, 0⟩ :: [])).1.next_run ≤ 10 ∧
    tw_trace_count
      (tw_run (ph_timerwheel_init 0 1)
        ([] ++ wheel_op.insert ⟨1, 5, false, 0, 0⟩ :: [] ++ [wheel_op.tick 10])).2 1 = 1 := by
  refine ⟨by decide, rfl, by decide, by decide, by decide, ?_⟩
  exact tw_C3 0 1 10 ⟨1, 5, false, 0, 0⟩ [] [] (by decide) rfl (by decide) (by decide)
    (by simp) (by simp) (by simp) (by decide)

/-! ### Claim C1: the tick engine -/

/-- C1: for a wheel with a positive tick resolution and `now ≥
next_run`, `ph_timerwheel_tick` advances `next_run` in steps of
`tick_resolution` until `next_run > now` (ending within one tick of
`now`), returns the number of timers dispatched (the length of the
dispatch trace), each step dispatching exactly the level-0 timers of
the serviced slot (slot zero relative to the wheel position); and
concretely, with resolution 1 ms and `init` at time 0, inserting one
timer with `due = 5` and ticking at 10 dispatches exactly that timer
with count 1 and leaves `next_run = 11`. -/
theorem tw_C1 (w : ph_timerwheel) (now : Nat)
    (hres : 0 < w.tick_resolution) (hnow : w.next_run ≤ now) :
    ((ph_timerwheel_tick w now).1.next_run
        = w.next_run + ((now - w.next_run) / w.tick_resolution + 1) * w.tick_resolution) ∧
    now < (ph_timerwheel_tick w now).1.next_run ∧
    (ph_timerwheel_tick w now).1.next_run ≤ now + w.tick_resolution ∧
    (ph_timerwheel_tick w now).2.2 = (ph_timerwheel_tick w now).2.1.length ∧
    (∀ v : ph_timerwheel, (tw_tick_step v now).2
        = ((tw_do_cascades v).entries.filter
            (fun e => e.level == 0 && e.slot == v.pos % PHENOM_WHEEL_SIZE)).map
            (fun e => ({ e.timer with active := false }, now))) ∧
    ((ph_timerwheel_tick
        (ph_timerwheel_insert (ph_timerwheel_init 0 1) ⟨1, 5, false, 0, 0⟩).1 10).2.1
      = [(⟨1, 5, false, 0, 0⟩, 10)] ∧
     (ph_timerwheel_tick
        (ph_timerwheel_insert (ph_timerwheel_init 0 1) ⟨1, 5, false, 0, 0⟩).1 10).2.2 = 1 ∧
     (ph_timerwheel_tick
        (ph_timerwheel_insert (ph_timerwheel_init 0 1) ⟨1, 5, false, 0, 0⟩).1 10).1.next_run
      = 11) := by
  have hn : tw_nsteps w now = (now - w.next_run) / w.tick_resolution + 1 := by
    simp [tw_nsteps, hnow]
  have hloop := tw_tick_loop_next_run (tw_nsteps w now) w now
  refine ⟨?_, ?_, ?_, ?_, ?_, ?_⟩
  · show (tw_tick_loop w now (tw_nsteps w now)).1.next_run = _
    rw [hloop.1, hn]
  · show now < (tw_tick_loop w now (tw_nsteps w now)).1.next_run
    rw [hloop.1, hn, Nat.add_mul, one_mul]
    have h1 := Nat.div_add_mod (now - w.next_run) w.tick_resolution
    have h2 := Nat.mod_lt (now - w.next_run) hres
    rw [Nat.mul_comm] at h1
    generalize (now - w.next_run) / w.tick_resolution * w.tick_resolution = X at h1 ⊢
    omega
  · show (tw_tick_loop w now (tw_nsteps w now)).1.next_run ≤ now + w.tick_resolution
    rw [hloop.1, hn, Nat.add_mul, one_mul]
    have h2 := Nat.div_mul_le_self (now - w.next_run) w.tick_resolution
    generalize (now - w.next_run) / w.tick_resolution * w.tick_resolution = X at h2 ⊢
    omega
  · exact tw_tick_loop_count _ _ _
  · intro v
    simp [tw_tick_step, tw_do_cascades_pos]
  · refine ⟨by decide, by decide, by decide⟩

/-- C1 witness: the theorem applied to the freshly initialized wheel of
the spec's first scenario. -/
theorem tw_C1_witness :
    0 < (ph_timerwheel_init 0 1).tick_resolution ∧
    (ph_timerwheel_init 0 1).next_run ≤ 10 ∧
    10 < (ph_timerwheel_tick (ph_timerwheel_init 0 1) 10).1.next_run :=
  ⟨by decide, by decide,
   (tw_C1 (ph_timerwheel_init 0 1) 10 (by decide) (by decide)).2.1⟩

/-! ### Claim C2: the insertion router -/

/-- C2 counterexample: the wheel reached by `init(0, 1)` followed by
`tick(127)` sits at position 128 (`next_run = 128`).  Inserting a
timer with `due = 512` gives tick delta `d = 384`, in the level-1
range, and the claim says it is placed at slot `(d >> 8) & 0xFF = 1`;
the model places it at level 1 slot `(pos + d) >> 8 & 0xFF = 2`, the
slot the tick engine will actually service on tick 512. -/
theorem tw_C2_cex :
    (ph_timerwheel_tick (ph_timerwheel_init 0 1) 127).1.next_run = 128 ∧
    (ph_timerwheel_tick (ph_timerwheel_init 0 1) 127).1.delta_ticks 512 = 384 ∧
    (2 ^ 8 ≤ 384 ∧ 384 < 2 ^ 16) ∧
    (ph_timerwheel_insert (ph_timerwheel_tick (ph_timerwheel_init 0 1) 127).1
        ⟨7, 512, false, 0, 0⟩).1.entries.head?
      = some ⟨1, 2, ⟨7, 512, true, 0, 0⟩⟩ ∧
    ¬ (2 : Nat) = 384 / 2 ^ 8 % 2 ^ 8 := by
  refine ⟨by decide, by decide, by decide, by decide, by decide⟩

/-- C2 (amended): insert routes by the stated thresholds on the tick
delta `d = max(0, (due - next_run) / tick_resolution)`, but the slot at
level `L` is the radix-256 digit `((pos + d) >> 8L) & 0xFF` of the
absolute due tick `pos + d`, where `pos` is the wheel's tick position;
the claim's slot values `d`, `(d >> 8) & 0xFF`, ... obtain when the
wheel is freshly initialized (`pos = 0`).  A timer with `due ≤
next_run` has `d = 0` and is placed at level 0 in the current slot
`pos mod 256` — the slot serviced by the next tick step, i.e. slot
zero relative to the wheel position, and literally slot 0 when
`pos ≡ 0 (mod 256)`. -/
theorem tw_C2 (w : ph_timerwheel) (t : ph_timerwheel_timer) (hact : t.active = false) :
    (ph_timerwheel_insert w t).1.entries
      = tw_entry_for w { t with active := true, wheel_gen := t.generation } :: w.entries ∧
    ((tw_entry_for w { t with active := true, wheel_gen := t.generation }).level,
     (tw_entry_for w { t with active := true, wheel_gen := t.generation }).slot)
      = (if w.delta_ticks t.due < 2 ^ 8 then (0, (w.pos + w.delta_ticks t.due) % 2 ^ 8)
         else if w.delta_ticks t.due < 2 ^ 16 then
           (1, (w.pos + w.delta_ticks t.due) / 2 ^ 8 % 2 ^ 8)
         else if w.delta_ticks t.due < 2 ^ 24 then
           (2, (w.pos + w.delta_ticks t.due) / 2 ^ 16 % 2 ^ 8)
         else (3, (w.pos + w.delta_ticks t.due) / 2 ^ 24 % 2 ^ 8)) ∧
    (t.due ≤ w.next_run →
      w.delta_ticks t.due = 0 ∧
      (tw_entry_for w { t with active := true, wheel_gen := t.generation }).level = 0 ∧
      (tw_entry_for w { t with active := true, wheel_gen := t.generation }).slot
        = w.pos % 2 ^ 8) := by
  have hdue : ({ t with active := true, wheel_gen := t.generation } :
      ph_timerwheel_timer).due = t.due := rfl
  refine ⟨by simp [ph_timerwheel_insert, hact], ?_, ?_⟩
  · simp only [tw_entry_for, hdue, tw_route, PHENOM_WHEEL_SIZE, PHENOM_WHEEL_BITS]
    norm_num
  · intro hle
    have hd : w.delta_ticks t.due = 0 := by
      unfold ph_timerwheel.delta_ticks
      rw [Nat.sub_eq_zero_of_le hle, Nat.zero_div]
    refine ⟨hd, ?_, ?_⟩ <;>
      simp [tw_entry_for, hdue, tw_route, hd, PHENOM_WHEEL_SIZE, PHENOM_WHEEL_BITS]

/-- C2 witness: the amended routing applied to an overdue timer on a
fresh wheel. -/
theorem tw_C2_witness :
    (⟨9, 0, false, 0, 0⟩ : ph_timerwheel_timer).active = false ∧
    (ph_timerwheel_init 3 1).delta_ticks 0 = 0 ∧
    (tw_entry_for (ph_timerwheel_init 3 1) ⟨9, 0, true, 0, 0⟩).level = 0 :=
  ⟨rfl, ((tw_C2 (ph_timerwheel_init 3 1) ⟨9, 0, false, 0, 0⟩ rfl).2.2 (by decide)).1,
   ((tw_C2 (ph_timerwheel_init 3 1) ⟨9, 0, false, 0, 0⟩ rfl).2.2 (by decide)).2.1⟩

/-! ### Claim C6: the generation counter -/

/-- C6 counterexample setup: insert two fresh timers into a fresh wheel
and remove both while armed. -/
def tw_gen_demo_i1 : ph_timerwheel × ph_timerwheel_timer × Nat :=
  ph_timerwheel_insert (ph_timerwheel_init 0 1) ⟨1, 5, false, 0, 0⟩

/-- Second insertion of the C6 counterexample. -/
def tw_gen_demo_i2 : ph_timerwheel × ph_timerwheel_timer × Nat :=
  ph_timerwheel_insert tw_gen_demo_i1.1 ⟨2, 6, false, 0, 0⟩

/-- First removal of the C6 counterexample. -/
def tw_gen_demo_r1 : ph_timerwheel × ph_timerwheel_timer × Nat :=
  ph_timerwheel_remove tw_gen_demo_i2.1 tw_gen_demo_i1.2.1

/-- Second removal of the C6 counterexample. -/
def tw_gen_demo_r2 : ph_timerwheel × ph_timerwheel_timer × Nat :=
  ph_timerwheel_remove tw_gen_demo_r1.1 tw_gen_demo_i2.2.1

/-- C6 counterexample: `struct ph_timerwheel` in the header carries no
generation counter; the counter lives on each timer.  Against the
claim's wheel-wide counter — which would record strictly increasing
generations on successive removals of two armed timers — both removals
here record generation 1. -/
theorem tw_C6_cex :
    tw_gen_demo_r1.2.2 = PH_OK ∧ tw_gen_demo_r2.2.2 = PH_OK ∧
    tw_gen_demo_r1.2.1.generation = 1 ∧ tw_gen_demo_r2.2.1.generation = 1 ∧
    ¬ tw_gen_demo_r1.2.1.generation < tw_gen_demo_r2.2.1.generation := by
  refine ⟨by decide, by decide, by decide, by decide, by decide⟩

/-- C6 (amended): the generation counter is per-timer, as declared in
`struct ph_timerwheel_timer`: removing an armed timer unlinks its node,
clears `active`, and increments that timer's own `generation`, which
therefore increases strictly across removals of that timer while
armed. -/
theorem tw_C6 (w : ph_timerwheel) (t : ph_timerwheel_timer) (h : t.active = true) :
    (ph_timerwheel_remove w t).2.2 = PH_OK ∧
    (ph_timerwheel_remove w t).2.1.active = false ∧
    (ph_timerwheel_remove w t).2.1.generation = t.generation + 1 ∧
    t.generation < (ph_timerwheel_remove w t).2.1.generation ∧
    (ph_timerwheel_remove w t).1.entries
      = w.entries.filter (fun e => e.timer.id != t.id) := by
  simp [ph_timerwheel_remove, h]

/-- C6 witness: removing a concrete armed timer bumps its generation to 1. -/
theorem tw_C6_witness :
    (⟨1, 5, true, 0, 0⟩ : ph_timerwheel_timer).active = true ∧
    (ph_timerwheel_remove (ph_timerwheel_init 0 1) ⟨1, 5, true, 0, 0⟩).2.1.generation = 1 := by
  refine ⟨rfl, ?_⟩
  have h := tw_C6 (ph_timerwheel_init 0 1) ⟨1, 5, true, 0, 0⟩ rfl
  simpa using h.2.2.1

/-! ### Claim C7: modification detection -/

lemma tw_timer_trace_invariant (w : ph_timerwheel) (ops : List timer_op)
    (t : ph_timerwheel_timer) (s : Bool × Bool)
    (ha : t.active = s.1) (hg : t.wheel_gen ≤ t.generation)
    (hm : ph_timerwheel_timer_was_modified t = s.2) :
    (ops.foldl (fun u op => timer_op_step w u op) t).active
      = (ops.foldl tw_removed_since s).1 ∧
    (ops.foldl (fun u op => timer_op_step w u op) t).wheel_gen
      ≤ (ops.foldl (fun u op => timer_op_step w u op) t).generation ∧
    ph_timerwheel_timer_was_modified (ops.foldl (fun u op => timer_op_step w u op) t)
      = (ops.foldl tw_removed_since s).2 := by
  induction ops generalizing t s with
  | nil => exact ⟨ha, hg, hm⟩
  | cons op rest ih =>
    simp only [List.foldl_cons]
    cases op with
    | insert =>
      cases hai : t.active with
      | false =>
        have hs1 : s.1 = false := by rw [← ha, hai]
        have hstep : timer_op_step w t .insert
            = { t with active := true, wheel_gen := t.generation } := by
          simp [timer_op_step, ph_timerwheel_insert, hai]
        have hg' : tw_removed_since s .insert = (true, false) := by
          simp [tw_removed_since, hs1]
        rw [hstep, hg']
        exact ih _ _ rfl (le_refl _) (by simp [ph_timerwheel_timer_was_modified])
      | true =>
        have hs1 : s.1 = true := by rw [← ha, hai]
        have hstep : timer_op_step w t .insert = t := by
          simp [timer_op_step, ph_timerwheel_insert, hai]
        have hg' : tw_removed_since s .insert = s := by
          simp [tw_removed_since, hs1]
        rw [hstep, hg']
        exact ih _ _ ha hg hm
    | remove =>
      cases hai : t.active with
      | false =>
        have hs1 : s.1 = false := by rw [← ha, hai]
        have hstep : timer_op_step w t .remove = t := by
          simp [timer_op_step, ph_timerwheel_remove, hai]
        have hg' : tw_removed_since s .remove = s := by
          simp [tw_removed_since, hs1]
        rw [hstep, hg']
        exact ih _ _ ha hg hm
      | true =>
        have hs1 : s.1 = true := by rw [← ha, hai]
        have hstep : timer_op_step w t .remove
            = { t with active := false, generation := t.generation + 1 } := by
          simp [timer_op_step, ph_timerwheel_remove, hai]
        have hg' : tw_removed_since s .remove = (false, true) := by
          simp [tw_removed_since, hs1]
        rw [hstep, hg']
        refine ih _ _ rfl ?_ ?_
        · show t.wheel_gen ≤ t.generation + 1
          omega
        · show ph_timerwheel_timer_was_modified
            { t with active := false, generation := t.generation + 1 } = true
          simp only [ph_timerwheel_timer_was_modified, bne_iff_ne, ne_eq, decide_eq_true_eq]
          omega
    | fire =>
      have hstep : timer_op_step w t .fire = { t with active := false } := rfl
      have hg' : tw_removed_since s .fire = (false, s.2) := rfl
      rw [hstep, hg']
      exact ih _ _ rfl hg hm

/-- C7: `ph_timerwheel_timer_was_modified` returns true iff
`timer.generation != timer.wheel_gen`; and over any sequence of
insert/remove/dispatch events applied to a fresh (zeroed) timer node,
it returns true iff the timer has been removed (while armed) since its
last successful insert. -/
theorem tw_C7 :
    (∀ t, ph_timerwheel_timer_was_modified t = true ↔ t.generation ≠ t.wheel_gen) ∧
    ∀ (w : ph_timerwheel) (ops : List timer_op),
      ph_timerwheel_timer_was_modified
          (ops.foldl (fun u op => timer_op_step w u op) ⟨0, 0, false, 0, 0⟩)
        = (ops.foldl tw_removed_since (false, false)).2 := by
  constructor
  · intro t
    simp [ph_timerwheel_timer_was_modified, bne_iff_ne]
  · intro w ops
    exact (tw_timer_trace_invariant w ops ⟨0, 0, false, 0, 0⟩ (false, false)
      rfl (le_refl 0) rfl).2.2

/-! ### Claim C8: removing a detached timer -/

/-- C8: `ph_timerwheel_remove` on a timer with `active = false` — in
particular one already unlinked for dispatch — reports `PH_NOENT`
("not present") and changes neither the wheel nor the timer. -/
theorem tw_C8 (w : ph_timerwheel) (t : ph_timerwheel_timer) (h : t.active = false) :
    ph_timerwheel_remove w t = (w, t, PH_NOENT) := by
  simp [ph_timerwheel_remove, h]

/-- C8 witness: removing a concrete detached timer is a no-op reporting
`PH_NOENT`. -/
theorem tw_C8_witness :
    (⟨3, 9, false, 2, 1⟩ : ph_timerwheel_timer).active = false ∧
    ph_timerwheel_remove (ph_timerwheel_init 0 1) ⟨3, 9, false, 2, 1⟩
      = (ph_timerwheel_init 0 1, ⟨3, 9, false, 2, 1⟩, PH_NOENT) :=
  ⟨rfl, tw_C8 (ph_timerwheel_init 0 1) ⟨3, 9, false, 2, 1⟩ rfl⟩

/-! ### Claim C9: inserting an armed timer -/

/-- C9: `ph_timerwheel_insert` on an armed timer detects the
precondition violation and reports `PH_EXISTS` without touching any
state; on a detached timer it always succeeds, so `PH_EXISTS` on an
armed timer is the only failure. -/
theorem tw_C9 (w : ph_timerwheel) (t : ph_timerwheel_timer) :
    (t.active = true → ph_timerwheel_insert w t = (w, t, PH_EXISTS)) ∧
    (t.active = false → (ph_timerwheel_insert w t).2.2 = PH_OK) ∧
    ((ph_timerwheel_insert w t).2.2 = PH_OK ∨
      ((ph_timerwheel_insert w t).2.2 = PH_EXISTS ∧ t.active = true)) := by
  refine ⟨fun h => by simp [ph_timerwheel_insert, h],
          fun h => by simp [ph_timerwheel_insert, h], ?_⟩
  cases h : t.active
  · left; simp [ph_timerwheel_insert, h]
  · right; exact ⟨by simp [ph_timerwheel_insert, h], rfl⟩

/-- C9 witness: a concrete armed timer is rejected with `PH_EXISTS`, a
concrete detached timer is accepted with `PH_OK`. -/
theorem tw_C9_witness :
    ph_timerwheel_insert (ph_timerwheel_init 0 1) ⟨4, 2, true, 0, 0⟩
      = (ph_timerwheel_init 0 1, ⟨4, 2, true, 0, 0⟩, PH_EXISTS) ∧
    (ph_timerwheel_insert (ph_timerwheel_init 0 1) ⟨5, 2, false, 0, 0⟩).2.2 = PH_OK :=
  ⟨(tw_C9 (ph_timerwheel_init 0 1) ⟨4, 2, true, 0, 0⟩).1 rfl,
   (tw_C9 (ph_timerwheel_init 0 1) ⟨5, 2, false, 0, 0⟩).2.1 rfl⟩

/-! ### Claim C10: ph_panic -/

/-- C10 counterexample: with the empty format string `ph_logv` returns
early (`strlen(fmt) == 0`), so `ph_panic("")` emits no panic-level
record carrying the message — yet it still logs the stack trace and
aborts.  The claim's "for every format string" therefore fails at
`fmt = ""`. -/
theorem tw_C10_cex :
    (ph_panic PH_LOG_ERR "" ["frame0"]).2 = none ∧
    log_action.line PH_LOG_PANIC "" ∉ (ph_panic PH_LOG_ERR "" ["frame0"]).1 := by
  exact ⟨rfl, by decide⟩

/-- C10 (amended): for every non-empty format string, `ph_panic` first
logs the message at panic level (panic level 0 passes any threshold),
logs each non-empty stack-trace line at panic level, finishes by
calling `abort()`, and never returns to its caller (its return value
does not exist). -/
theorem tw_C10 (log_level : Nat) (fmt : String) (frames : List String)
    (hfmt : fmt.length ≠ 0) :
    (ph_panic log_level fmt frames).1.head? = some (.line PH_LOG_PANIC fmt) ∧
    (∀ s ∈ frames, s.length ≠ 0 →
        log_action.line PH_LOG_PANIC s ∈ (ph_panic log_level fmt frames).1) ∧
    (ph_panic log_level fmt frames).1.getLast? = some .abort_called ∧
    (ph_panic log_level fmt frames).2 = none := by
  have hv : ph_logv log_level PH_LOG_PANIC fmt = [.line PH_LOG_PANIC fmt] := by
    simp [ph_logv, PH_LOG_PANIC, hfmt]
  refine ⟨?_, ?_, ?_, rfl⟩
  · simp [ph_panic, hv]
  · intro s hs hlen
    have hmem : log_action.line PH_LOG_PANIC s
        ∈ ph_log_stacktrace log_level PH_LOG_PANIC frames := by
      simp only [ph_log_stacktrace, List.mem_flatten]
      refine ⟨[.line PH_LOG_PANIC s], ?_, by simp⟩
      simp only [List.mem_map]
      exact ⟨s, hs, by simp [ph_log, ph_logv, PH_LOG_PANIC, hlen]⟩
    simp [ph_panic, hmem]
  · show ((ph_logv log_level PH_LOG_PANIC fmt
      ++ ph_log log_level PH_LOG_PANIC "Fatal error detected at:"
      ++ ph_log_stacktrace log_level PH_LOG_PANIC frames)
      ++ [log_action.abort_called]).getLast? = some .abort_called
    rw [List.getLast?_append_of_ne_nil _ (by simp)]
    rfl

/-- C10 witness: a concrete panic with a non-empty message. -/
theorem tw_C10_witness :
    "boom".length ≠ 0 ∧
    (ph_panic PH_LOG_ERR "boom" ["frame0"]).2 = none ∧
    (ph_panic PH_LOG_ERR "boom" ["frame0"]).1.head? = some (.line PH_LOG_PANIC "boom") :=
  ⟨by decide, (tw_C10 PH_LOG_ERR "boom" ["frame0"] (by decide)).2.2.2,
   (tw_C10 PH_LOG_ERR "boom" ["frame0"] (by decide)).1⟩

/-! ### Claim C4: no spurious dispatch (corrected to the resolution bound) -/

/-- C4 counterexample: tick quantizes `due` to ticks by floor division
(spec section 4.1: `d = (due - next_run) / tick_resolution`), so a
timer can be dispatched up to one tick early.  With `tick_resolution
= 10`, a timer due at 15 lands one tick after `next_run = 0` and is
dispatched by `tick` at `now = 12`, even though `due = 15 > 12`,
contradicting the claim that no dispatched timer has `due > now`. -/
theorem tw_C4_cex :
    (tw_run (ph_timerwheel_init 0 10)
        [wheel_op.insert ⟨1, 15, false, 0, 0⟩, wheel_op.tick 12]).2
      = [(⟨1, 15, false, 0, 0⟩, 12)] ∧ (12 : Nat) < 15 := by
  decide

/-- C4 (amended): over every run from `init(start, res)` with `res > 0`
whose inserted timers satisfy the router's 32-bit delta precondition,
every dispatch `(timer, now)` in the trace satisfies
`timer.due < now + res` — a timer is dispatched at most one tick
resolution early (exactly the quantization slack of section 4.1), and
never any earlier.  The unamended claim `due ≤ now` is refuted by
`tw_C4_cex`. -/
theorem tw_C4 (start res : Nat) (ops : List wheel_op)
    (hres : 0 < res)
    (hval : ∀ op ∈ ops, tw_op_valid start res op) :
    ∀ pr ∈ (tw_run (ph_timerwheel_init start res) ops).2,
      pr.1.due < pr.2 + res := by
  have h := tw_run_fold_all ops start res (ph_timerwheel_init start res, []) hres
    ⟨rfl, rfl⟩ (fun e he => absurd he (List.not_mem_nil e))
    (fun pr hpr => absurd hpr (List.not_mem_nil pr)) hval
  exact h.2

theorem tw_C4_witness :
    (0 : Nat) < 10 ∧
    ∀ pr ∈ (tw_run (ph_timerwheel_init 0 10)
        [wheel_op.insert ⟨1, 15, false, 0, 0⟩, wheel_op.tick 12]).2,
      pr.1.due < pr.2 + 10 :=
  ⟨by decide,
   tw_C4 0 10 [wheel_op.insert ⟨1, 15, false, 0, 0⟩, wheel_op.tick 12]
     (by decide)
     (by
       intro op hop
       rcases List.mem_cons.1 hop with h | h
       · subst h
         show (15 - 0) / 10 < 2 ^ 32
         norm_num
       · rcases List.mem_cons.1 h with h2 | h2
         · subst h2
           trivial
         · exact absurd h2 (List.not_mem_nil _))⟩

/-! ### Claim C5: slot zero of levels above 0 is empty after its boundary tick -/

/-- C5: three parts. (A) Reachability: every wheel reached from
`init(start, res)` by a valid operation sequence satisfies the
placement invariant on all entries. (B) On any wheel satisfying the
invariant, after the tick step at a boundary of level `L ≥ 1`
(`256^(L+1)` divides `pos`, the step that services slot zero of level
`L`), no entry sits at level `L` slot 0: its contents were cascaded
down. (C) Every entry drained from a level-1 slot during a cascade
(level 1, slot `(pos >> 8) mod 256`, at a 256-boundary) is re-routed
to level 0. -/
theorem tw_C5 :
    (∀ (start res : Nat) (ops : List wheel_op), 0 < res →
      (∀ op ∈ ops, tw_op_valid start res op) →
      ∀ e ∈ (tw_run (ph_timerwheel_init start res) ops).1.entries,
        tw_entry_inv start res (tw_run (ph_timerwheel_init start res) ops).1.pos e) ∧
    (∀ (w : ph_timerwheel) (now L : Nat), 0 < w.tick_resolution →
      (∀ e ∈ w.entries, tw_entry_inv w.start w.tick_resolution w.pos e) →
      1 ≤ L → L ≤ 3 → 256 ^ (L + 1) ∣ w.pos → 0 < w.pos →
      ∀ e' ∈ (tw_tick_step w now).1.entries, ¬(e'.level = L ∧ e'.slot = 0)) ∧
    (∀ w : ph_timerwheel, 0 < w.tick_resolution →
      (∀ e ∈ w.entries, tw_entry_inv w.start w.tick_resolution w.pos e) →
      w.pos % 256 = 0 → 0 < w.pos →
      ∀ e ∈ w.entries, e.level = 1 → e.slot = w.pos / 256 % 256 →
        (tw_entry_for w e.timer).level = 0) := by
  refine ⟨?_, ?_, ?_⟩
  · intro start res ops hres hval
    exact (tw_run_fold_all ops start res (ph_timerwheel_init start res, []) hres
      ⟨rfl, rfl⟩ (fun e he => absurd he (List.not_mem_nil e))
      (fun pr hpr => absurd hpr (List.not_mem_nil pr)) hval).1
  · intro w now L hres hinv hL1 hL3 hdvd hpos e' he' hc
    obtain ⟨hcL, hcS⟩ := hc
    rw [(tw_tick_step_entries w now).1] at he'
    have hcasc : e' ∈ (tw_do_cascades w).entries := (List.mem_filter.1 he').1
    rcases tw_do_cascades_mem w e' hcasc with ⟨hw, h1, h2, h3⟩ |
        ⟨hb1, hb2, e0, he0, heq, hstage⟩
    · have hinv' := hinv e' hw
      have hl0 : ¬ e'.level = 0 := by omega
      unfold tw_entry_inv at hinv'
      rw [if_neg hl0] at hinv'
      obtain ⟨hl1, hl3, hslotT, hlo, hhi, hBmin⟩ := hinv'
      have hmodz : tw_T w.start w.tick_resolution e' / 256 ^ L % 256 = 0 := by
        have h := hslotT
        rw [hcL] at h
        rw [← h]
        exact hcS
      obtain ⟨q, hq⟩ := Nat.dvd_of_mod_eq_zero hmodz
      have hBdvd : 256 ^ (L + 1) ∣ tw_bB w.start w.tick_resolution e' := by
        unfold tw_bB
        rw [hcL, hq]
        exact ⟨q, by rw [pow_succ]; ring⟩
      have hhi' : tw_bB w.start w.tick_resolution e' < w.pos + 256 ^ (L + 1) := by
        rw [hcL] at hhi
        exact hhi
      have hBeq := tw_dvd_window_eq (256 ^ (L + 1)) w.pos
        (tw_bB w.start w.tick_resolution e') hdvd hBdvd hlo hhi'
      exact tw_survivor_bB_ne w.start w.tick_resolution w e' h1 h2 h3 hl1 hl3
        hslotT hBmin hBeq.symm
    · have hinv0 := hinv e0 he0
      have hcore := tw_replaced_core w e0 hres hinv0 hstage hb1
      have hd32 : w.delta_ticks e0.timer.due < 256 ^ 4 := by
        have hlev3 : e0.level ≤ 3 := by
          rcases hstage with h | h | h
          · omega
          · omega
          · omega
        have hmono : (256 : Nat) ^ e0.level ≤ 256 ^ 4 :=
          Nat.pow_le_pow_right (by norm_num) (by omega)
        omega
      obtain ⟨hpinv, hpstrict⟩ := tw_place_inv w e0.timer hres hd32
      have hlev : (tw_entry_for w e0.timer).level = L := by
        rw [← heq]
        exact hcL
      have hslot0 : (tw_entry_for w e0.timer).slot = 0 := by
        rw [← heq]
        exact hcS
      have hl0 : ¬ (tw_entry_for w e0.timer).level = 0 := by omega
      unfold tw_entry_inv at hpinv
      rw [if_neg hl0] at hpinv
      obtain ⟨hl1, hl3, hslotT, hlo, hhi, hBmin⟩ := hpinv
      have hstrict := hpstrict (by omega)
      have hmodz : tw_T w.start w.tick_resolution (tw_entry_for w e0.timer)
          / 256 ^ L % 256 = 0 := by
        rw [hlev] at hslotT
        rw [← hslotT]
        exact hslot0
      obtain ⟨q, hq⟩ := Nat.dvd_of_mod_eq_zero hmodz
      have hBdvd : 256 ^ (L + 1)
          ∣ tw_bB w.start w.tick_resolution (tw_entry_for w e0.timer) := by
        unfold tw_bB
        rw [hlev, hq]
        exact ⟨q, by rw [pow_succ]; ring⟩
      have hhi' : tw_bB w.start w.tick_resolution (tw_entry_for w e0.timer)
          < w.pos + 256 ^ (L + 1) := by
        rw [hlev] at hhi
        exact hhi
      have hBeq := tw_dvd_window_eq (256 ^ (L + 1)) w.pos
        (tw_bB w.start w.tick_resolution (tw_entry_for w e0.timer)) hdvd hBdvd
        (le_of_lt hstrict) hhi'
      omega
  · intro w hres hinv hp256 hpos e he hlev hslot
    have haux := tw_replaced_core_aux w e hres (hinv e he) (by omega)
      (by
        rw [hlev, pow_one]
        exact Nat.dvd_of_mod_eq_zero hp256)
      (by
        rw [hlev, pow_one]
        exact hslot)
    have hd : w.delta_ticks e.timer.due < 256 := by
      have h := haux.2.2
      rw [hlev, pow_one] at h
      exact h
    show (tw_route w.pos (w.delta_ticks e.timer.due)).1 = 0
    unfold tw_route
    simp only [tw_SIZE_eq]
    rw [if_pos hd]

theorem tw_C5_witness :
    (0 : Nat) < 1 ∧ (256 : Nat) ^ 2 ∣ 65536 ∧ (0 : Nat) < 65536 ∧
    ∀ e' ∈ (tw_tick_step ⟨0, 1, 65536, []⟩ 0).1.entries,
      ¬(e'.level = 1 ∧ e'.slot = 0) :=
  ⟨by decide, ⟨1, by norm_num⟩, by decide,
   tw_C5.2.1 ⟨0, 1, 65536, []⟩ 0 1 (by decide)
     (fun e he => absurd he (List.not_mem_nil e)) (by decide) (by decide)
     ⟨1, by norm_num⟩ (by decide)⟩

end Phenom
